import Mathlib

/-!
Shallow embedding of the injury-risk estimation engine of the cars316
repository: the feature hasher, the hashed-feature logistic-regression
trainer/predictor, the domain-table builder, and the greedy risk-chain
search (source: the estimator section of the main orchestrator module).
Machine floats are modelled by real numbers; JS 32-bit shift semantics
are modelled explicitly on `Int`.
-/

set_option maxRecDepth 8000

namespace Cars316

/-- JS `ToInt32`: reduce an integer into `[-2^31, 2^31)`. -/
def toInt32 (n : Int) : Int := (n + 2 ^ 31) % 2 ^ 32 - 2 ^ 31

/-- djb2-style string hash from the source:
`h = 5381; for each char: h = ((h << 5) + h) + code; return abs(h) % D`.
In JS `h << 5` coerces `h` to int32 and truncates the shift to 32 bits,
while the outer additions are exact (the magnitudes stay far below 2^53
for the short keys the program builds), so they are modelled exactly. -/
def hashStr (s : String) (D : Nat) : Nat :=
  ((s.data.foldl (fun h c => toInt32 (toInt32 h * 32) + h + c.toNat) 5381).natAbs) % D

/-- A partial query: any subset of the five categorical fields. -/
structure Choice where
  vehicleType : Option String := none
  preCrash : Option String := none
  borough : Option String := none
  hour : Option Int := none
  dow : Option Int := none
deriving DecidableEq

/-- A training record: a query shape plus the injury label. -/
structure Row where
  vehicleType : Option String := none
  preCrash : Option String := none
  borough : Option String := none
  hour : Option Int := none
  dow : Option Int := none
  injured : Bool := false
deriving DecidableEq

def Row.choice (r : Row) : Choice :=
  ⟨r.vehicleType, r.preCrash, r.borough, r.hour, r.dow⟩

/-- The guard of the `add` helper in `featureIndices`: a key is emitted
unless the value is null (already collapsed to `""` by `|| ''`), empty,
or the literal `"Unspecified"`. -/
def addKey (k v : String) : List String :=
  if v = "" ∨ v = "Unspecified" then [] else [k ++ "=" ++ v]

/-- The sequence of keys the source's `featureIndices` feeds to the hash,
in the order of the `add` calls: the five single fields, then the
action×hour, action×day and vehicle×action interactions (each guarded by
truthiness of its constituents exactly as in the source). -/
def activeKeys (c : Choice) : List String :=
  addKey "veh" (c.vehicleType.getD "") ++
  addKey "act" (c.preCrash.getD "") ++
  addKey "bor" (c.borough.getD "") ++
  (match c.hour with | some h => addKey "hour" (toString h) | none => []) ++
  (match c.dow with | some d => addKey "dow" (toString d) | none => []) ++
  (match c.preCrash, c.hour with
   | some a, some h => if a = "" then [] else addKey "actxhour" (a ++ "×" ++ toString h)
   | _, _ => []) ++
  (match c.preCrash, c.dow with
   | some a, some d => if a = "" then [] else addKey "actxdow" (a ++ "×" ++ toString d)
   | _, _ => []) ++
  (match c.vehicleType, c.preCrash with
   | some v, some a => if v = "" ∨ a = "" then [] else addKey "vehxact" (v ++ "×" ++ a)
   | _, _ => [])

/-- Insertion into a JS `Set` (insertion order kept, duplicates dropped). -/
def setInsert (l : List Nat) (x : Nat) : List Nat :=
  if x ∈ l then l else l ++ [x]

/-- The active feature set of a record or query: each key hashed into one
of `D` buckets and inserted into a `Set`; `Array.from` returns the
members in insertion order. -/
def featureIndices (c : Choice) (D : Nat) : List Nat :=
  (activeKeys c).foldl (fun acc k => setInsert acc (hashStr k D)) []

/-- `sigmoid(z) = 1 / (1 + exp(-max(-30, min(30, z))))`. -/
noncomputable def sigmoid (z : ℝ) : ℝ :=
  1 / (1 + Real.exp (-(max (-30) (min 30 z))))

/-- A trained model `{ D, w, b, baseRate }`; the `Float64Array(D)` of
weights is modelled as a function on bucket indices. -/
structure Model where
  D : Nat
  w : Nat → ℝ
  b : ℝ
  baseRate : ℝ

/-- One SGD step of the inner training loop, on a state `(b, w)` and a
precomputed record `(idx, y)`:
`z = b + Σ w[idx]`, `p = sigmoid z`, `g = p - y`, `b -= lr*g`, and each
active weight `w[j] = w[j]*(1 - lr*λ) - lr*g` (updated in index order). -/
noncomputable def recStep (lr lam : ℝ) (st : ℝ × (Nat → ℝ)) (d : List Nat × ℝ) :
    ℝ × (Nat → ℝ) :=
  let z := st.1 + (d.1.map st.2).sum
  let p := sigmoid z
  let g := p - d.2
  (st.1 - lr * g,
   d.1.foldl (fun w j => Function.update w j (w j * (1 - lr * lam) - lr * g)) st.2)

/-- `trainEstimator(rows, D = 1024)` from the source: null on an empty
record list; otherwise base rate, log-odds bias initialisation with the
1e-6 epsilon, zero weights, and 3 epochs of per-record SGD with
`lr = 0.2 / (1 + epoch)` and L2 coefficient 1e-3 over the precomputed
feature lists, in the supplied record order. -/
noncomputable def trainEstimator (rows : List Row) (D : Nat := 1024) : Option Model :=
  if rows.length = 0 then none else
  let baseRate : ℝ :=
    (rows.map (fun r => if r.injured then (1 : ℝ) else 0)).sum / (max 1 rows.length : ℕ)
  let b0 : ℝ := Real.log ((baseRate + 1e-6) / (1 - baseRate + 1e-6))
  let data := rows.map (fun r => (featureIndices r.choice D, if r.injured then (1 : ℝ) else 0))
  let st := (List.range 3).foldl
    (fun st (ep : ℕ) => data.foldl (recStep (0.2 / (1 + (ep : ℝ))) 1e-3) st) (b0, fun _ => 0)
  some ⟨D, st.2, st.1, baseRate⟩

/-- `predictEstimator(model, choice)`: null iff the model is null;
otherwise the clamped sigmoid of the bias plus the active weights. -/
noncomputable def predictEstimator (model : Option Model) (c : Choice) : Option ℝ :=
  match model with
  | none => none
  | some m =>
    let idx := featureIndices c m.D
    let z := m.b + (idx.map m.w).sum
    some (max 0 (min 1 (sigmoid z)))

/-! ### Helper lemmas on the hasher and feature sets -/

theorem setInsert_nodup {l : List Nat} (h : l.Nodup) (x : Nat) :
    (setInsert l x).Nodup := by
  unfold setInsert
  split
  · exact h
  · next hx =>
    refine List.Nodup.append h (List.nodup_singleton x) ?_
    simpa using hx

theorem mem_setInsert {l : List Nat} {x y : Nat} :
    y ∈ setInsert l x ↔ y ∈ l ∨ y = x := by
  unfold setInsert
  split
  · next hx =>
    constructor
    · exact Or.inl
    · rintro (h | rfl) <;> [exact h; exact hx]
  · simp

theorem featureIndices_nodup (c : Choice) (D : Nat) : (featureIndices c D).Nodup := by
  unfold featureIndices
  generalize activeKeys c = ks
  suffices h : ∀ (ks : List String) (acc : List Nat), acc.Nodup →
      (ks.foldl (fun acc k => setInsert acc (hashStr k D)) acc).Nodup by
    exact h ks [] List.nodup_nil
  intro ks
  induction ks with
  | nil => intro acc h; simpa using h
  | cons k ks ih => intro acc h; exact ih _ (setInsert_nodup h _)

theorem mem_featureIndices {c : Choice} {D : Nat} {j : Nat} :
    j ∈ featureIndices c D ↔ ∃ k ∈ activeKeys c, hashStr k D = j := by
  unfold featureIndices
  generalize activeKeys c = ks
  suffices h : ∀ (ks : List String) (acc : List Nat),
      (j ∈ ks.foldl (fun acc k => setInsert acc (hashStr k D)) acc ↔
        j ∈ acc ∨ ∃ k ∈ ks, hashStr k D = j) by
    simpa using h ks []
  intro ks
  induction ks with
  | nil => intro acc; simp
  | cons k ks ih =>
    intro acc
    simp only [List.foldl_cons, ih, mem_setInsert, List.mem_cons]
    constructor
    · rintro ((h | rfl) | ⟨k', hk', rfl⟩)
      · exact Or.inl h
      · exact Or.inr ⟨k, Or.inl rfl, rfl⟩
      · exact Or.inr ⟨k', Or.inr hk', rfl⟩
    · rintro (h | ⟨k', (rfl | hk'), rfl⟩)
      · exact Or.inl (Or.inl h)
      · exact Or.inl (Or.inr rfl)
      · exact Or.inr ⟨k', hk', rfl⟩

theorem hashStr_lt (s : String) {D : Nat} (hD : 0 < D) : hashStr s D < D :=
  Nat.mod_lt _ hD

/-! ### Claim C1 -/

/-- C1: `predict` returns null exactly when the model is null, and on any
model and any query it returns a probability in `[0, 1]` (the clamp at
the boundary makes this unconditional). -/
theorem predict_unit_interval (mo : Option Model) (c : Choice) :
    (predictEstimator mo c).isSome = mo.isSome ∧
      ∀ p : ℝ, predictEstimator mo c = some p → 0 ≤ p ∧ p ≤ 1 := by
  constructor
  · cases mo <;> rfl
  · intro p hp
    cases mo with
    | none => simp [predictEstimator] at hp
    | some m =>
      simp only [predictEstimator] at hp
      injection hp with hp
      rw [← hp]
      exact ⟨le_max_left _ _, max_le (by norm_num) (min_le_left _ _)⟩

/-- Concrete instance of C1: the all-zero model gives a defined
probability within `[0, 1]` on the unconstrained query. -/
theorem predict_unit_interval_example :
    (predictEstimator (some ⟨1, fun _ => 0, 0, 0⟩) {}).isSome = true ∧
      (0 : ℝ) ≤ max 0 (min 1 (sigmoid 0)) ∧ max 0 (min 1 (sigmoid 0)) ≤ 1 := by
  have h : predictEstimator (some ⟨1, fun _ => 0, 0, 0⟩) {} = some (max 0 (min 1 (sigmoid 0))) := by
    show some (max 0 (min 1 (sigmoid (0 + (List.map _ (featureIndices {} 1)).sum)))) = _
    norm_num [featureIndices, activeKeys, addKey]
  refine ⟨(predict_unit_interval (some ⟨1, fun _ => 0, 0, 0⟩) {}).1, ?_⟩
  exact (predict_unit_interval (some ⟨1, fun _ => 0, 0, 0⟩) {}).2 _ h

/-! ### Claim C6 -/

/-- C6: training on an empty record list yields a null model, and
`predict` on a null model yields null. -/
theorem train_empty_predict_none :
    (∀ D, trainEstimator [] D = none) ∧ ∀ c, predictEstimator none c = none := by
  exact ⟨fun D => rfl, fun c => rfl⟩

/-! ### Claim C8 -/

/-- C8: the hash is a pure function of `(key, D)` and lands in `[0, D)`,
so every index in an active feature set is in `[0, D)`: all weight-array
accesses during training and prediction are in bounds. -/
theorem hash_deterministic_in_range (s : String) (D : Nat) (hD : 0 < D) :
    hashStr s D = hashStr s D ∧ hashStr s D < D ∧
      ∀ (c : Choice) (j : Nat), j ∈ featureIndices c D → j < D := by
  refine ⟨rfl, hashStr_lt s hD, ?_⟩
  intro c j hj
  obtain ⟨k, -, rfl⟩ := mem_featureIndices.mp hj
  exact hashStr_lt k hD

/-- Concrete instance of C8 at the default dimension. -/
theorem hash_deterministic_in_range_example :
    hashStr "veh=Sedan" 1024 < 1024 ∧ 272 < 1024 := by
  refine ⟨(hash_deterministic_in_range "veh=Sedan" 1024 (by norm_num)).2.1, ?_⟩
  exact (hash_deterministic_in_range "veh=Sedan" 1024 (by norm_num)).2.2
    ⟨some "Sedan", none, none, none, none⟩ 272 (by decide)

/-! ### Claim C3 -/

/-- C3 counterexample: with `D = 1` every key collides on bucket 0.  The
query `{vehicleType: "Sedan", preCrash: "Turning"}` emits three distinct
keys, all hashing to bucket 0, yet the active feature set keeps the
bucket once: the `Set` deduplicates indices, it does not keep one
contribution per key. -/
theorem collision_dedup_counterexample :
    activeKeys ⟨some "Sedan", some "Turning", none, none, none⟩ =
      ["veh=Sedan", "act=Turning", "vehxact=Sedan×Turning"] ∧
    (activeKeys ⟨some "Sedan", some "Turning", none, none, none⟩).map
      (fun k => hashStr k 1) = [0, 0, 0] ∧
    featureIndices ⟨some "Sedan", some "Turning", none, none, none⟩ 1 = [0] := by
  refine ⟨by decide, by decide, by decide⟩

/-- C3 amended: the active feature set is duplicate-free; a bucket hit by
several distinct keys of the same record appears exactly once, so
training and prediction accumulate that bucket's weight once in total
(not once per key). -/
theorem feature_set_dedups_collisions (c : Choice) (D : Nat) :
    (featureIndices c D).Nodup ∧
      ∀ j, j ∈ featureIndices c D ↔ ∃ k ∈ activeKeys c, hashStr k D = j :=
  ⟨featureIndices_nodup c D, fun _ => mem_featureIndices⟩

/-! ### Domain tables (source `buildDomains` and its `byCount` helper) -/

/-- `(r[key] || '').trim()` followed by the source's exclusion of empty,
`Unspecified`, `NA` and `Unknown` values. -/
def cleanVal (v : Option String) : Option String :=
  let t := (v.getD "").trim
  if t = "" ∨ t = "Unspecified" ∨ t = "NA" ∨ t = "Unknown" then none else some t

/-- `m.set(v, (m.get(v) || 0) + 1)` on a JS `Map` modelled as an
insertion-ordered association list. -/
def bump : List (String × Nat) → String → List (String × Nat)
  | [], v => [(v, 1)]
  | (k, c) :: rest, v => if k = v then (k, c + 1) :: rest else (k, c) :: bump rest v

/-- The counting loop of the source's `byCount`. -/
def byCount (rows : List Row) (get : Row → Option String) : List (String × Nat) :=
  rows.foldl (fun m r => match cleanVal (get r) with | none => m | some v => bump m v) []

/-- Stable insertion (descending by count) — the embedding of the stable
`Array.prototype.sort` with comparator `(a, b) => b[1] - a[1]`. -/
def insertPairDesc (p : String × Nat) : List (String × Nat) → List (String × Nat)
  | [] => [p]
  | q :: qs => if p.2 < q.2 then q :: insertPairDesc p qs else p :: q :: qs

/-- Stable sort by descending count. -/
def sortPairsDesc : List (String × Nat) → List (String × Nat)
  | [] => []
  | p :: ps => insertPairDesc p (sortPairsDesc ps)

/-- `byCount(...)` sorted by descending count, names only, capped. -/
def buildDomainList (rows : List Row) (get : Row → Option String) (cap : Nat) : List String :=
  ((sortPairsDesc (byCount rows get)).map Prod.fst).take cap

/-- The source's domain table for chain search. -/
structure Domains where
  vehicleType : List String
  preCrash : List String
  borough : List String
  hour : List Int
  dow : List Int

/-- `buildDomains(rows)`: vehicle and action capped at 12, borough at 6,
hour the fixed list `0..23`, day-of-week the fixed order `[1..6, 0]`. -/
def buildDomains (rows : List Row) : Domains :=
  { vehicleType := buildDomainList rows (fun r => r.vehicleType) 12
    preCrash := buildDomainList rows (fun r => r.preCrash) 12
    borough := buildDomainList rows (fun r => r.borough) 6
    hour := (List.range 24).map (fun n => (n : Int))
    dow := [1, 2, 3, 4, 5, 6, 0] }

/-! ### The spec-side description of a domain column.

Modelled from the spec's words: "mapping from field name to an ordered
sequence of its most frequent non-null values (frequency-ranked, ties
broken by first-encountered order), capped at a configurable count". -/

/-- The valid (cleaned, non-excluded) values of a field, in record order. -/
def validValues (rows : List Row) (get : Row → Option String) : List String :=
  rows.filterMap (fun r => cleanVal (get r))

/-- The distinct values in first-encountered order. -/
def firstEncountered (l : List String) : List String :=
  l.foldl (fun acc v => if v ∈ acc then acc else acc ++ [v]) []

/-- Stable insertion of a value by descending frequency. -/
def insertValDesc (freq : String → Nat) (v : String) : List String → List String
  | [] => [v]
  | w :: ws => if freq v < freq w then w :: insertValDesc freq v ws else v :: w :: ws

/-- Stable sort of values by descending frequency (ties keep the order of
the input list, i.e. first-encountered order). -/
def sortValsDesc (freq : String → Nat) : List String → List String
  | [] => []
  | v :: vs => insertValDesc freq v (sortValsDesc freq vs)

/-- The spec's description of one domain column: the distinct valid
values, ranked by descending frequency with ties in first-encountered
order, capped. -/
def domainSpec (rows : List Row) (get : Row → Option String) (cap : Nat) : List String :=
  (sortValsDesc (fun v => (validValues rows get).count v)
    (firstEncountered (validValues rows get))).take cap

/-! Helper lemmas: the counting map is exactly "first-encountered distinct
values paired with their frequencies". -/

theorem mem_firstEncountered {l : List String} {x : String} :
    x ∈ firstEncountered l ↔ x ∈ l := by
  unfold firstEncountered
  suffices h : ∀ (l : List String) (acc : List String),
      (x ∈ l.foldl (fun acc v => if v ∈ acc then acc else acc ++ [v]) acc ↔
        x ∈ acc ∨ x ∈ l) by
    simpa using h l []
  intro l
  induction l with
  | nil => intro acc; simp
  | cons v vs ih =>
    intro acc
    simp only [List.foldl_cons, ih, List.mem_cons]
    split
    · next hv =>
      constructor
      · rintro (h | h) <;> tauto
      · rintro (h | rfl | h) <;> tauto
    · simp only [List.mem_append, List.mem_singleton]
      constructor
      · rintro ((h | rfl) | h) <;> tauto
      · rintro (h | rfl | h) <;> tauto

theorem nodup_firstEncountered (l : List String) : (firstEncountered l).Nodup := by
  unfold firstEncountered
  suffices h : ∀ (l : List String) (acc : List String), acc.Nodup →
      (l.foldl (fun acc v => if v ∈ acc then acc else acc ++ [v]) acc).Nodup by
    exact h l [] List.nodup_nil
  intro l
  induction l with
  | nil => intro acc h; simpa using h
  | cons v vs ih =>
    intro acc h
    simp only [List.foldl_cons]
    split
    · exact ih acc h
    · next hv =>
      refine ih _ (List.Nodup.append h (List.nodup_singleton v) ?_)
      simpa using hv

theorem firstEncountered_append_singleton (l : List String) (v : String) :
    firstEncountered (l ++ [v]) =
      if v ∈ l then firstEncountered l else firstEncountered l ++ [v] := by
  unfold firstEncountered
  rw [List.foldl_append]
  simp only [List.foldl_cons, List.foldl_nil]
  by_cases hv : v ∈ l
  · rw [if_pos, if_pos hv]
    exact mem_firstEncountered.mpr hv
  · rw [if_neg, if_neg hv]
    exact fun h => hv (mem_firstEncountered.mp h)

/-- The counting map reached after processing a value sequence `pre`. -/
def mkPairs (pre : List String) : List (String × Nat) :=
  (firstEncountered pre).map (fun v => (v, pre.count v))

theorem bump_map_mem {l : List String} (freq : String → Nat) {v : String}
    (hnd : l.Nodup) (hv : v ∈ l) :
    bump (l.map fun w => (w, freq w)) v =
      l.map (fun w => (w, freq w + if w = v then 1 else 0)) := by
  induction l with
  | nil => cases hv
  | cons w ws ih =>
    simp only [List.map_cons, bump]
    by_cases hw : w = v
    · subst hw
      rw [if_pos rfl, if_pos rfl]
      have hnotin : w ∉ ws := (List.nodup_cons.mp hnd).1
      have : ws.map (fun u => (u, freq u + if u = w then 1 else 0)) =
          ws.map (fun u => (u, freq u)) := by
        apply List.map_congr_left
        intro u hu
        have : u ≠ w := fun h => hnotin (h ▸ hu)
        simp [this]
      rw [this]
    · rw [if_neg hw, if_neg hw]
      have hv' : v ∈ ws := by
        rcases List.mem_cons.mp hv with h | h
        · exact absurd h.symm hw
        · exact h
      rw [ih (List.nodup_cons.mp hnd).2 hv']
      simp

theorem bump_map_not_mem {l : List String} (freq : String → Nat) {v : String}
    (hv : v ∉ l) :
    bump (l.map fun w => (w, freq w)) v =
      (l.map fun w => (w, freq w)) ++ [(v, 1)] := by
  induction l with
  | nil => rfl
  | cons w ws ih =>
    have hw : w ≠ v := fun h => hv (h ▸ List.mem_cons_self w ws)
    have hv' : v ∉ ws := fun h => hv (List.mem_cons_of_mem _ h)
    simp only [List.map_cons, bump, if_neg hw, List.cons_append, ih hv']

theorem bump_mkPairs (pre : List String) (v : String) :
    bump (mkPairs pre) v = mkPairs (pre ++ [v]) := by
  unfold mkPairs
  rw [firstEncountered_append_singleton]
  by_cases hv : v ∈ pre
  · rw [if_pos hv]
    rw [bump_map_mem (fun w => pre.count w) (nodup_firstEncountered pre)
      (mem_firstEncountered.mpr hv)]
    apply List.map_congr_left
    intro w _
    simp only [List.count_append, List.count_singleton']
    rcases eq_or_ne w v with rfl | h
    · simp
    · simp [if_neg h, if_neg (Ne.symm h)]
  · rw [if_neg hv]
    rw [bump_map_not_mem (fun w => pre.count w) (fun h => hv (mem_firstEncountered.mp h))]
    rw [List.map_append]
    congr 1
    · apply List.map_congr_left
      intro w hw
      have hwv : w ≠ v := fun h => hv (h ▸ mem_firstEncountered.mp hw)
      simp [List.count_append, List.count_singleton', hwv]
    · simp only [List.map_singleton]
      have : pre.count v = 0 := List.count_eq_zero.mpr hv
      simp [List.count_append, this]

theorem foldl_bump_mkPairs (vals pre : List String) :
    vals.foldl bump (mkPairs pre) = mkPairs (pre ++ vals) := by
  induction vals generalizing pre with
  | nil => simp
  | cons v vs ih =>
    simp only [List.foldl_cons, bump_mkPairs]
    rw [ih (pre ++ [v])]
    simp

theorem byCount_eq_mkPairs (rows : List Row) (get : Row → Option String) :
    byCount rows get = mkPairs (validValues rows get) := by
  unfold byCount validValues
  suffices h : ∀ (rows : List Row) (m : List (String × Nat)) (pre : List String),
      m = mkPairs pre →
      rows.foldl (fun m r => match cleanVal (get r) with | none => m | some v => bump m v) m =
        mkPairs (pre ++ rows.filterMap (fun r => cleanVal (get r))) by
    simpa using h rows [] [] rfl
  intro rows
  induction rows with
  | nil => intro m pre h; simpa using h
  | cons r rs ih =>
    intro m pre h
    simp only [List.foldl_cons, List.filterMap_cons]
    cases hc : cleanVal (get r) with
    | none => simpa using ih m pre h
    | some v =>
      have := ih (bump m v) (pre ++ [v]) (by rw [h, bump_mkPairs])
      simpa using this

/-! Helper lemmas: sorting pairs then dropping counts agrees with the
spec-side sort of the values keyed by frequency. -/

theorem mem_insertPairDesc {p q : String × Nat} {l : List (String × Nat)} :
    q ∈ insertPairDesc p l → q = p ∨ q ∈ l := by
  induction l with
  | nil => simp [insertPairDesc]
  | cons r rs ih =>
    simp only [insertPairDesc]
    split
    · intro h
      rcases List.mem_cons.mp h with h | h
      · exact Or.inr (h ▸ List.mem_cons_self r rs)
      · rcases ih h with h | h
        · exact Or.inl h
        · exact Or.inr (List.mem_cons_of_mem _ h)
    · intro h
      rcases List.mem_cons.mp h with h | h
      · exact Or.inl h
      · exact Or.inr h

theorem mem_sortPairsDesc {q : String × Nat} {l : List (String × Nat)} :
    q ∈ sortPairsDesc l → q ∈ l := by
  induction l with
  | nil => simp [sortPairsDesc]
  | cons p ps ih =>
    intro h
    rcases mem_insertPairDesc h with h | h
    · exact h ▸ List.mem_cons_self p ps
    · exact List.mem_cons_of_mem _ (ih h)

theorem map_fst_insertPairDesc (freq : String → Nat) (p : String × Nat)
    (l : List (String × Nat)) (hp : p.2 = freq p.1) (hl : ∀ q ∈ l, q.2 = freq q.1) :
    (insertPairDesc p l).map Prod.fst = insertValDesc freq p.1 (l.map Prod.fst) := by
  induction l with
  | nil => rfl
  | cons q qs ih =>
    have hq : q.2 = freq q.1 := hl q (List.mem_cons_self q qs)
    simp only [insertPairDesc, List.map_cons, insertValDesc]
    rw [hp, hq]
    split
    · simp only [List.map_cons]
      rw [ih (fun r hr => hl r (List.mem_cons_of_mem _ hr))]
    · rfl

theorem map_fst_sortPairsDesc (freq : String → Nat) (l : List (String × Nat))
    (hl : ∀ q ∈ l, q.2 = freq q.1) :
    (sortPairsDesc l).map Prod.fst = sortValsDesc freq (l.map Prod.fst) := by
  induction l with
  | nil => rfl
  | cons p ps ih =>
    simp only [sortPairsDesc, List.map_cons, sortValsDesc]
    rw [map_fst_insertPairDesc freq p (sortPairsDesc ps)
      (hl p (List.mem_cons_self p ps))
      (fun q hq => hl q (List.mem_cons_of_mem _ (mem_sortPairsDesc hq)))]
    rw [ih (fun q hq => hl q (List.mem_cons_of_mem _ hq))]

theorem buildDomainList_eq_domainSpec (rows : List Row) (get : Row → Option String)
    (cap : Nat) : buildDomainList rows get cap = domainSpec rows get cap := by
  unfold buildDomainList domainSpec
  congr 1
  rw [byCount_eq_mkPairs]
  unfold mkPairs
  rw [map_fst_sortPairsDesc (fun v => (validValues rows get).count v)]
  · congr 1
    rw [List.map_map]
    rw [show (Prod.fst ∘ fun v => (v, (validValues rows get).count v)) = id from rfl]
    exact List.map_id _
  · intro q hq
    obtain ⟨v, -, rfl⟩ := List.mem_map.mp hq
    rfl

/-! ### Claim C7 -/

/-- C7 counterexample: on the empty record list the hour column of the
domain table has 24 entries — it is a fixed enumeration, not a
frequency-ranked list of observed values, and it exceeds the claimed cap
of 12. -/
theorem domain_table_counterexample :
    ((buildDomains []).hour).length = 24 ∧ ¬ ((buildDomains []).hour).length ≤ 12 := by
  refine ⟨by decide, by decide⟩

/-- C7 amended: the vehicle-type and action columns are the
frequency-ranked (descending, ties in first-encountered order) valid
values capped at 12, the borough column the same capped at 6, while the
hour and day-of-week columns are fixed enumerations `0..23` and
`[1,2,3,4,5,6,0]` independent of the data. -/
theorem domain_table_spec (rows : List Row) :
    (buildDomains rows).vehicleType = domainSpec rows (fun r => r.vehicleType) 12 ∧
    (buildDomains rows).preCrash = domainSpec rows (fun r => r.preCrash) 12 ∧
    (buildDomains rows).borough = domainSpec rows (fun r => r.borough) 6 ∧
    (buildDomains rows).hour = (List.range 24).map (fun n => (n : Int)) ∧
    (buildDomains rows).dow = [1, 2, 3, 4, 5, 6, 0] :=
  ⟨buildDomainList_eq_domainSpec rows _ 12, buildDomainList_eq_domainSpec rows _ 12,
   buildDomainList_eq_domainSpec rows _ 6, rfl, rfl⟩

/-! ### Greedy risk-chain search (source `supportCount` and `greedyChain`) -/

/-- The five chain-search fields, in the source's iteration order. -/
inductive Field
  | vehicleType | preCrash | borough | hour | dow
deriving DecidableEq

def Field.all : List Field := [.vehicleType, .preCrash, .borough, .hour, .dow]

/-- A domain value: the string fields carry strings, hour/dow numbers. -/
inductive FVal
  | str (s : String)
  | num (n : Int)
deriving DecidableEq

/-- Read a selection field as in the JS `sel[f] != null` test. -/
def Choice.get? (c : Choice) : Field → Option FVal
  | .vehicleType => c.vehicleType.map .str
  | .preCrash => c.preCrash.map .str
  | .borough => c.borough.map .str
  | .hour => c.hour.map .num
  | .dow => c.dow.map .num

/-- `{...sel, [f]: v}`.  A type-mismatched assignment cannot arise from
the domain table and leaves the selection unchanged. -/
def Choice.set (c : Choice) (f : Field) (v : FVal) : Choice :=
  match f, v with
  | .vehicleType, .str s => { c with vehicleType := some s }
  | .preCrash, .str s => { c with preCrash := some s }
  | .borough, .str s => { c with borough := some s }
  | .hour, .num n => { c with hour := some n }
  | .dow, .num n => { c with dow := some n }
  | _, _ => c

/-- The candidate values of a field, read off the domain table. -/
def Domains.get (d : Domains) : Field → List FVal
  | .vehicleType => d.vehicleType.map .str
  | .preCrash => d.preCrash.map .str
  | .borough => d.borough.map .str
  | .hour => d.hour.map .num
  | .dow => d.dow.map .num

/-- A truthy string constraint passes when the record carries exactly the
selected value (the JS `sel.f && r.f !== sel.f` skip); an empty-string
selection is falsy and unconstrained. -/
def strFieldOk (c : Option String) (rv : Option String) : Bool :=
  match c with
  | none => true
  | some v => decide (v = "") || decide (rv = some v)

/-- A finite numeric constraint passes when the record carries exactly the
selected number (the JS `Number.isFinite(sel.f) && r.f !== sel.f` skip). -/
def numFieldOk (c : Option Int) (rv : Option Int) : Bool :=
  match c with
  | none => true
  | some v => decide (rv = some v)

/-- A record passes every constraint of the selection. -/
def matchesSel (sel : Choice) (r : Row) : Bool :=
  strFieldOk sel.vehicleType r.vehicleType && strFieldOk sel.preCrash r.preCrash &&
    strFieldOk sel.borough r.borough && numFieldOk sel.hour r.hour &&
    numFieldOk sel.dow r.dow

/-- `supportCount(rows, sel)`: how many records match the selection. -/
def supportCount (rows : List Row) (sel : Choice) : Nat :=
  rows.countP (fun r => matchesSel sel r)

/-- One step of a rendered chain. -/
structure Step where
  label : String
  field : Option Field
  value : Option FVal
  p : ℝ
  n : Nat
  delta : Option ℝ

/-- The running best candidate of the greedy scan. -/
structure Cand where
  field : Field
  value : FVal
  p : ℝ
  n : Nat
  delta : ℝ
  score : ℝ

inductive Direction
  | worst | best
deriving DecidableEq

/-- Directional score: maximise `delta` for worst chains, `-delta` for
best chains. -/
def dirGain (dir : Direction) (delta : ℝ) : ℝ :=
  match dir with
  | .worst => delta
  | .best => -delta

def niceName : Field → String
  | .vehicleType => "Vehicle"
  | .preCrash => "Action"
  | .borough => "Borough"
  | .hour => "Hour"
  | .dow => "Day"

def dowLabels : List String := ["Sun", "Mon", "Tue", "Wed", "Thu", "Fri", "Sat"]

/-- `String(h).padStart(2, '0')`. -/
def pad2 (s : String) : String :=
  if s.length < 2 then String.mk (List.replicate (2 - s.length) '0') ++ s else s

/-- The source's `fmtVal` label formatter. -/
def fmtVal (f : Field) (v : FVal) : String :=
  match f, v with
  | .hour, .num h => pad2 (toString h) ++ ":00"
  | .dow, .num d => if d < 0 then toString d else dowLabels.getD d.toNat (toString d)
  | _, .str s => s
  | _, .num n => toString n

/-- The chain step recorded for an accepted candidate. -/
def mkStep (best : Cand) : Step :=
  ⟨niceName best.field ++ " = " ++ fmtVal best.field best.value, some best.field,
    some best.value, best.p, best.n, some best.delta⟩

/-- The candidate pairs scanned by the nested loops: still-unassigned
fields in source order, each with its domain values in order. -/
def candList (domains : Domains) (sel : Choice) : List (Field × FVal) :=
  (Field.all.filter (fun f => decide (sel.get? f = none))).flatMap
    (fun f => (domains.get f).map (fun v => (f, v)))

/-- The body of the candidate scan: skip low support, skip null
predictions, otherwise keep the strictly-better candidate (first seen
wins ties). -/
noncomputable def consider (rows : List Row) (model : Option Model) (dir : Direction)
    (minSupport : Nat) (pCurr : ℝ) (sel : Choice) (best : Option Cand)
    (fv : Field × FVal) : Option Cand :=
  let trial := sel.set fv.1 fv.2
  let n := supportCount rows trial
  if n < minSupport then best
  else
    match predictEstimator model trial with
    | none => best
    | some p =>
      let delta := p - pCurr
      let score := dirGain dir delta
      match best with
      | none => some ⟨fv.1, fv.2, p, n, delta, score⟩
      | some b => if b.score < score then some ⟨fv.1, fv.2, p, n, delta, score⟩ else some b

/-- The full scan over all still-unassigned fields and domain values. -/
noncomputable def findBest (rows : List Row) (model : Option Model) (domains : Domains)
    (dir : Direction) (minSupport : Nat) (sel : Choice) (pCurr : ℝ) : Option Cand :=
  (candList domains sel).foldl (consider rows model dir minSupport pCurr sel) none

/-- The depth-bounded greedy loop: stop on no candidate or an improvement
below `minDelta`; otherwise fix the winning assignment and recurse. -/
noncomputable def chainLoop (rows : List Row) (model : Option Model) (domains : Domains)
    (dir : Direction) (minSupport : Nat) (minDelta : ℝ) :
    Nat → Choice → ℝ → List Step → List Step
  | 0, _, _, steps => steps
  | fuel + 1, sel, pCurr, steps =>
    match findBest rows model domains dir minSupport sel pCurr with
    | none => steps
    | some best =>
      if minDelta ≤ dirGain dir best.delta then
        chainLoop rows model domains dir minSupport minDelta fuel
          (sel.set best.field best.value) best.p (steps ++ [mkStep best])
      else steps

/-- `greedyChain(rows, model, domains, direction, opts)` with the source's
defaults `maxDepth = 5`, `minSupport = 80`, `minDelta = 0.001`. -/
noncomputable def greedyChain (rows : List Row) (model : Option Model) (domains : Domains)
    (dir : Direction) (maxDepth : Nat := 5) (minSupport : Nat := 80)
    (minDelta : ℝ := 1 / 1000) : List Step :=
  let sel : Choice := {}
  let pCurr := (predictEstimator model sel).getD ((model.map Model.baseRate).getD 0)
  chainLoop rows model domains dir minSupport minDelta maxDepth sel pCurr
    [⟨"Start", none, none, pCurr, rows.length, none⟩]

/-! ### Selection / support helper lemmas -/

theorem get?_set_self {d : Domains} {f : Field} {v : FVal} (hv : v ∈ d.get f)
    (c : Choice) : (c.set f v).get? f = some v := by
  cases f <;> simp only [Domains.get] at hv <;>
    obtain ⟨x, -, rfl⟩ := List.mem_map.mp hv <;>
    simp [Choice.set, Choice.get?]

theorem get?_set_of_ne {f g : Field} (h : g ≠ f) (c : Choice) (v : FVal) :
    (c.set f v).get? g = c.get? g := by
  cases f <;> cases v <;> cases g <;> simp_all [Choice.set, Choice.get?]

theorem matchesSel_set {sel : Choice} {f : Field} (hf : sel.get? f = none) (v : FVal)
    (r : Row) : matchesSel (sel.set f v) r = true → matchesSel sel r = true := by
  cases f <;> cases v <;>
    simp_all [Choice.set, Choice.get?, matchesSel, Option.map_eq_none'] <;>
    tauto

theorem supportCount_set_le {rows : List Row} {sel : Choice} {f : Field}
    (hf : sel.get? f = none) (v : FVal) :
    supportCount rows (sel.set f v) ≤ supportCount rows sel :=
  List.countP_mono_left (fun r _ hr => matchesSel_set hf v r hr)

theorem supportCount_empty (rows : List Row) : supportCount rows {} = rows.length := by
  unfold supportCount
  simp [matchesSel, strFieldOk, numFieldOk]

theorem candList_mem {domains : Domains} {sel : Choice} {fv : Field × FVal}
    (h : fv ∈ candList domains sel) :
    sel.get? fv.1 = none ∧ fv.2 ∈ domains.get fv.1 := by
  unfold candList at h
  simp only [List.mem_flatMap, List.mem_filter, List.mem_map] at h
  obtain ⟨f, ⟨-, hf⟩, v, hv, rfl⟩ := h
  exact ⟨by simpa using hf, hv⟩

/-- Everything `findBest` guarantees about a returned candidate. -/
def candGood (rows : List Row) (model : Option Model) (domains : Domains)
    (minSupport : Nat) (sel : Choice) (pCurr : ℝ) (c : Cand) : Prop :=
  sel.get? c.field = none ∧ c.value ∈ domains.get c.field ∧
    predictEstimator model (sel.set c.field c.value) = some c.p ∧
    c.n = supportCount rows (sel.set c.field c.value) ∧ minSupport ≤ c.n ∧
    c.delta = c.p - pCurr

theorem consider_good {rows : List Row} {model : Option Model} {domains : Domains}
    {dir : Direction} {minSupport : Nat} {sel : Choice} {pCurr : ℝ}
    {best : Option Cand} {fv : Field × FVal}
    (hbest : ∀ c, best = some c → candGood rows model domains minSupport sel pCurr c)
    (hfv : sel.get? fv.1 = none ∧ fv.2 ∈ domains.get fv.1) :
    ∀ c, consider rows model dir minSupport pCurr sel best fv = some c →
      candGood rows model domains minSupport sel pCurr c := by
  intro c hc
  simp only [consider] at hc
  split at hc
  · exact hbest c hc
  · next hn =>
    split at hc
    · exact hbest c hc
    · next p hpe =>
      split at hc
      · injection hc with hc
        subst hc
        exact ⟨hfv.1, hfv.2, hpe, rfl, le_of_not_lt hn, rfl⟩
      · split at hc
        · injection hc with hc
          subst hc
          exact ⟨hfv.1, hfv.2, hpe, rfl, le_of_not_lt hn, rfl⟩
        · injection hc with hc
          subst hc
          exact hbest _ rfl

theorem findBest_good {rows : List Row} {model : Option Model} {domains : Domains}
    {dir : Direction} {minSupport : Nat} {sel : Choice} {pCurr : ℝ} {c : Cand}
    (h : findBest rows model domains dir minSupport sel pCurr = some c) :
    candGood rows model domains minSupport sel pCurr c := by
  unfold findBest at h
  suffices haux : ∀ (l : List (Field × FVal)),
      (∀ fv ∈ l, sel.get? fv.1 = none ∧ fv.2 ∈ domains.get fv.1) →
      ∀ best : Option Cand,
        (∀ c, best = some c → candGood rows model domains minSupport sel pCurr c) →
        ∀ c, l.foldl (consider rows model dir minSupport pCurr sel) best = some c →
          candGood rows model domains minSupport sel pCurr c by
    exact haux (candList domains sel) (fun fv hfv => candList_mem hfv) none
      (by intro c hc; cases hc) c h
  intro l
  induction l with
  | nil =>
    intro _ best hbest c hc
    exact hbest c (by simpa using hc)
  | cons fv l ih =>
    intro hl best hbest c hc
    simp only [List.foldl_cons] at hc
    exact ih (fun x hx => hl x (List.mem_cons_of_mem _ hx)) _
      (consider_good hbest (hl fv (List.mem_cons_self fv l))) c hc

/-! ### Chain loop invariants -/

theorem chainLoop_extends (rows : List Row) (model : Option Model) (domains : Domains)
    (dir : Direction) (minSupport : Nat) (minDelta : ℝ) :
    ∀ (fuel : Nat) (sel : Choice) (pCurr : ℝ) (steps : List Step),
      ∃ ext, chainLoop rows model domains dir minSupport minDelta fuel sel pCurr steps =
        steps ++ ext := by
  intro fuel
  induction fuel with
  | zero =>
    intro sel pCurr steps
    exact ⟨[], by simp [chainLoop]⟩
  | succ fuel ih =>
    intro sel pCurr steps
    rcases hfb : findBest rows model domains dir minSupport sel pCurr with _ | best
    · exact ⟨[], by simp [chainLoop, hfb]⟩
    · by_cases himp : minDelta ≤ dirGain dir best.delta
      · simp only [chainLoop, hfb, if_pos himp]
        obtain ⟨ext, hext⟩ := ih (sel.set best.field best.value) best.p (steps ++ [mkStep best])
        exact ⟨mkStep best :: ext, by rw [hext]; simp⟩
      · simp only [chainLoop, hfb, if_neg himp]
        exact ⟨[], by simp⟩

theorem chainLoop_length_le (rows : List Row) (model : Option Model) (domains : Domains)
    (dir : Direction) (minSupport : Nat) (minDelta : ℝ) :
    ∀ (fuel : Nat) (sel : Choice) (pCurr : ℝ) (steps : List Step),
      (chainLoop rows model domains dir minSupport minDelta fuel sel pCurr steps).length ≤
        steps.length + fuel := by
  intro fuel
  induction fuel with
  | zero =>
    intro sel pCurr steps
    simp [chainLoop]
  | succ fuel ih =>
    intro sel pCurr steps
    rcases hfb : findBest rows model domains dir minSupport sel pCurr with _ | best
    · simp [chainLoop, hfb]
    · by_cases himp : minDelta ≤ dirGain dir best.delta
      · simp only [chainLoop, hfb, if_pos himp]
        calc (chainLoop rows model domains dir minSupport minDelta fuel
              (sel.set best.field best.value) best.p (steps ++ [mkStep best])).length ≤
            (steps ++ [mkStep best]).length + fuel := ih _ _ _
          _ = steps.length + (fuel + 1) := by simp; omega
      · simp only [chainLoop, hfb, if_neg himp]
        simp

theorem chainLoop_chain_p (rows : List Row) (model : Option Model) (domains : Domains)
    (dir : Direction) (minSupport : Nat) {minDelta : ℝ} (hmd : 0 ≤ minDelta) :
    ∀ (fuel : Nat) (sel : Choice) (pCurr : ℝ) (steps : List Step) (last : Step),
      steps.getLast? = some last → last.p = pCurr →
      List.Chain' (fun a b => 0 ≤ dirGain dir (b.p - a.p)) steps →
      List.Chain' (fun a b => 0 ≤ dirGain dir (b.p - a.p))
        (chainLoop rows model domains dir minSupport minDelta fuel sel pCurr steps) := by
  intro fuel
  induction fuel with
  | zero =>
    intro sel pCurr steps last _ _ hch
    simpa [chainLoop] using hch
  | succ fuel ih =>
    intro sel pCurr steps last hlast hlp hch
    rcases hfb : findBest rows model domains dir minSupport sel pCurr with _ | best
    · simpa [chainLoop, hfb] using hch
    · have hgood := findBest_good hfb
      by_cases himp : minDelta ≤ dirGain dir best.delta
      · simp only [chainLoop, hfb, if_pos himp]
        refine ih (sel.set best.field best.value) best.p (steps ++ [mkStep best])
          (mkStep best) (List.getLast?_concat steps) rfl ?_
        rw [List.chain'_append]
        refine ⟨hch, List.chain'_singleton _, ?_⟩
        intro x hx y hy
        rw [hlast] at hx
        simp only [Option.mem_def, Option.some.injEq] at hx
        simp only [List.head?_cons, Option.mem_def, Option.some.injEq] at hy
        subst hx
        subst hy
        have hdelta : best.delta = best.p - pCurr := hgood.2.2.2.2.2
        have : (mkStep best).p = best.p := rfl
        rw [this, hlp]
        rw [hdelta] at himp
        exact le_trans hmd himp
      · simp only [chainLoop, hfb, if_neg himp]
        exact hch

theorem chainLoop_fields (rows : List Row) (model : Option Model) (domains : Domains)
    (dir : Direction) (minSupport : Nat) (minDelta : ℝ) :
    ∀ (fuel : Nat) (sel : Choice) (pCurr : ℝ) (steps : List Step),
      (∀ f ∈ steps.filterMap Step.field, sel.get? f ≠ none) →
      (steps.filterMap Step.field).Nodup →
      ((chainLoop rows model domains dir minSupport minDelta fuel sel pCurr
        steps).filterMap Step.field).Nodup := by
  intro fuel
  induction fuel with
  | zero =>
    intro sel pCurr steps _ hnd
    simpa [chainLoop] using hnd
  | succ fuel ih =>
    intro sel pCurr steps hassigned hnd
    rcases hfb : findBest rows model domains dir minSupport sel pCurr with _ | best
    · simpa [chainLoop, hfb] using hnd
    · have hgood := findBest_good hfb
      by_cases himp : minDelta ≤ dirGain dir best.delta
      · simp only [chainLoop, hfb, if_pos himp]
        have hfm : (steps ++ [mkStep best]).filterMap Step.field =
            steps.filterMap Step.field ++ [best.field] := by
          rw [List.filterMap_append]
          rfl
        refine ih (sel.set best.field best.value) best.p (steps ++ [mkStep best]) ?_ ?_
        · intro f hf
          rw [hfm] at hf
          rcases List.mem_append.mp hf with hf | hf
          · by_cases hfe : f = best.field
            · subst hfe
              rw [get?_set_self hgood.2.1]
              simp
            · rw [get?_set_of_ne hfe]
              exact hassigned f hf
          · have hfe : f = best.field := by simpa using hf
            subst hfe
            rw [get?_set_self hgood.2.1]
            simp
        · rw [hfm]
          refine List.Nodup.append hnd (List.nodup_singleton _) ?_
          intro f hf hf'
          have hfe : f = best.field := by simpa using hf'
          subst hfe
          exact hassigned _ hf hgood.1
      · simp only [chainLoop, hfb, if_neg himp]
        exact hnd

theorem chainLoop_support (rows : List Row) (model : Option Model) (domains : Domains)
    (dir : Direction) (minSupport : Nat) (minDelta : ℝ) :
    ∀ (fuel : Nat) (sel : Choice) (pCurr : ℝ) (steps : List Step) (last : Step),
      steps.getLast? = some last → last.n = supportCount rows sel →
      List.Chain' (fun a b => b.n ≤ a.n) steps →
      (∀ s ∈ steps.drop 1, minSupport ≤ s.n) →
      List.Chain' (fun a b => b.n ≤ a.n)
          (chainLoop rows model domains dir minSupport minDelta fuel sel pCurr steps) ∧
        ∀ s ∈ (chainLoop rows model domains dir minSupport minDelta fuel sel pCurr
          steps).drop 1, minSupport ≤ s.n := by
  intro fuel
  induction fuel with
  | zero =>
    intro sel pCurr steps last _ _ hch hsup
    constructor
    · simpa [chainLoop] using hch
    · simpa [chainLoop] using hsup
  | succ fuel ih =>
    intro sel pCurr steps last hlast hln hch hsup
    rcases hfb : findBest rows model domains dir minSupport sel pCurr with _ | best
    · constructor
      · simpa [chainLoop, hfb] using hch
      · simpa [chainLoop, hfb] using hsup
    · have hgood := findBest_good hfb
      by_cases himp : minDelta ≤ dirGain dir best.delta
      · simp only [chainLoop, hfb, if_pos himp]
        have hsteps_ne : steps ≠ [] := by
          intro h
          rw [h] at hlast
          simp at hlast
        have hdrop : (steps ++ [mkStep best]).drop 1 = steps.drop 1 ++ [mkStep best] :=
          List.drop_append_of_le_length (by
            rcases steps with _ | ⟨a, l⟩
            · exact absurd rfl hsteps_ne
            · simp)
        refine ih (sel.set best.field best.value) best.p (steps ++ [mkStep best])
          (mkStep best) (List.getLast?_concat steps) ?_ ?_ ?_
        · exact hgood.2.2.2.1
        · rw [List.chain'_append]
          refine ⟨hch, List.chain'_singleton _, ?_⟩
          intro x hx y hy
          rw [hlast] at hx
          simp only [Option.mem_def, Option.some.injEq] at hx
          simp only [List.head?_cons, Option.mem_def, Option.some.injEq] at hy
          subst hx
          subst hy
          show (mkStep best).n ≤ last.n
          have h1 : (mkStep best).n = supportCount rows (sel.set best.field best.value) :=
            hgood.2.2.2.1
          rw [h1, hln]
          exact supportCount_set_le hgood.1 best.value
        · intro s hs
          rw [hdrop] at hs
          rcases List.mem_append.mp hs with hs | hs
          · exact hsup s hs
          · have hse : s = mkStep best := by simpa using hs
            subst hse
            exact hgood.2.2.2.2.1
      · simp only [chainLoop, hfb, if_neg himp]
        exact ⟨hch, hsup⟩

/-- The unconditional starting probability of a chain. -/
noncomputable def startProb (model : Option Model) : ℝ :=
  (predictEstimator model {}).getD ((model.map Model.baseRate).getD 0)

/-- The synthetic Start step. -/
noncomputable def startStep (rows : List Row) (model : Option Model) : Step :=
  ⟨"Start", none, none, startProb model, rows.length, none⟩

theorem greedyChain_def (rows : List Row) (model : Option Model) (domains : Domains)
    (dir : Direction) (maxDepth minSupport : Nat) (minDelta : ℝ) :
    greedyChain rows model domains dir maxDepth minSupport minDelta =
      chainLoop rows model domains dir minSupport minDelta maxDepth {}
        (startProb model) [startStep rows model] := rfl

/-! ### Claim C4 -/

/-- C4: with a nonnegative `minDelta`, a worst chain has non-decreasing
step probabilities and a best chain non-increasing ones. -/
theorem chain_monotone (rows : List Row) (model : Option Model) (domains : Domains)
    (maxDepth minSupport : Nat) {minDelta : ℝ} (hmd : 0 ≤ minDelta) :
    List.Chain' (fun a b => a.p ≤ b.p)
        (greedyChain rows model domains .worst maxDepth minSupport minDelta) ∧
      List.Chain' (fun a b => b.p ≤ a.p)
        (greedyChain rows model domains .best maxDepth minSupport minDelta) := by
  constructor
  · rw [greedyChain_def]
    refine List.Chain'.imp ?_
      (chainLoop_chain_p rows model domains .worst minSupport hmd maxDepth {}
        (startProb model) [startStep rows model] (startStep rows model)
        (by simp) rfl (List.chain'_singleton _))
    intro a b h
    simpa [dirGain] using h
  · rw [greedyChain_def]
    refine List.Chain'.imp ?_
      (chainLoop_chain_p rows model domains .best minSupport hmd maxDepth {}
        (startProb model) [startStep rows model] (startStep rows model)
        (by simp) rfl (List.chain'_singleton _))
    intro a b h
    simp only [dirGain] at h
    linarith

/-- Concrete instance of C4 at the source's default options. -/
theorem chain_monotone_example :
    List.Chain' (fun a b => a.p ≤ b.p)
        (greedyChain [] none ⟨[], [], [], [], []⟩ .worst 5 80 (1 / 1000)) ∧
      List.Chain' (fun a b => b.p ≤ a.p)
        (greedyChain [] none ⟨[], [], [], [], []⟩ .best 5 80 (1 / 1000)) :=
  chain_monotone [] none ⟨[], [], [], [], []⟩ 5 80 (by norm_num)

/-! ### Claim C5 -/

/-- C5: no field is assigned by two different non-Start steps of a chain,
and the chain length is between 1 and `maxDepth + 1`. -/
theorem chain_fields_unique (rows : List Row) (model : Option Model) (domains : Domains)
    (dir : Direction) (maxDepth minSupport : Nat) (minDelta : ℝ) :
    ((greedyChain rows model domains dir maxDepth minSupport minDelta).filterMap
        Step.field).Nodup ∧
      1 ≤ (greedyChain rows model domains dir maxDepth minSupport minDelta).length ∧
      (greedyChain rows model domains dir maxDepth minSupport minDelta).length ≤
        maxDepth + 1 := by
  refine ⟨?_, ?_, ?_⟩
  · rw [greedyChain_def]
    refine chainLoop_fields rows model domains dir minSupport minDelta maxDepth {}
      (startProb model) [startStep rows model] ?_ ?_
    · intro f hf
      simp [startStep, Step.field] at hf
    · simp [startStep, Step.field]
  · obtain ⟨ext, hext⟩ := chainLoop_extends rows model domains dir minSupport minDelta
      maxDepth {} (startProb model) [startStep rows model]
    rw [greedyChain_def, hext]
    simp
  · have h := chainLoop_length_le rows model domains dir minSupport minDelta maxDepth {}
      (startProb model) [startStep rows model]
    rw [greedyChain_def]
    simpa [Nat.add_comm] using h

/-! ### Claim C10 -/

/-- C10: along a chain the support counts are non-increasing, the Start
step's support is the total record count, and every non-Start step has
support at least `minSupport`. -/
theorem chain_support_antitone (rows : List Row) (model : Option Model)
    (domains : Domains) (dir : Direction) (maxDepth minSupport : Nat) (minDelta : ℝ) :
    List.Chain' (fun a b => b.n ≤ a.n)
        (greedyChain rows model domains dir maxDepth minSupport minDelta) ∧
      (∃ s, (greedyChain rows model domains dir maxDepth minSupport minDelta).head? =
        some s ∧ s.n = rows.length) ∧
      ((greedyChain rows model domains dir maxDepth minSupport minDelta).drop 1).Forall
        (fun s => minSupport ≤ s.n) := by
  have h := chainLoop_support rows model domains dir minSupport minDelta maxDepth {}
    (startProb model) [startStep rows model] (startStep rows model)
    (by simp) (by simp [startStep, supportCount_empty]) (List.chain'_singleton _)
    (by simp)
  refine ⟨?_, ?_, ?_⟩
  · rw [greedyChain_def]
    exact h.1
  · obtain ⟨ext, hext⟩ := chainLoop_extends rows model domains dir minSupport minDelta
      maxDepth {} (startProb model) [startStep rows model]
    rw [greedyChain_def, hext]
    exact ⟨startStep rows model, by simp, rfl⟩
  · rw [greedyChain_def, List.forall_iff_forall_mem]
    exact h.2

/-! ### Claim C2: the training loop against its reference description.

Modelled from the spec's words: per-record `z`, `p`, `gradient`, the bias
update, a simultaneous update of every active weight
`weight*(1 - lr*1e-3) - lr*gradient`, learning rate `0.2/(1 + epoch)`
over 3 epochs in supplied record order, bias initialised to the
epsilon-guarded log-odds of the base rate, weights to zero. -/

/-- One reference SGD step, directly from the claim's equations (the
active weights are updated simultaneously and pointwise). -/
noncomputable def specRecStep (lr : ℝ) (D : Nat) (st : ℝ × (Nat → ℝ)) (r : Row) :
    ℝ × (Nat → ℝ) :=
  let idx := featureIndices r.choice D
  let z := st.1 + (idx.map st.2).sum
  let p := sigmoid z
  let g := p - (if r.injured then 1 else 0)
  (st.1 - lr * g, fun j => if j ∈ idx then st.2 j * (1 - lr * 1e-3) - lr * g else st.2 j)

/-- The reference training computation of claim C2. -/
noncomputable def specTrain (rows : List Row) (D : Nat) : Option Model :=
  if rows = [] then none else
  let baseRate : ℝ := (rows.countP (fun r => r.injured) : ℝ) / (rows.length : ℝ)
  let b0 : ℝ := Real.log ((baseRate + 1e-6) / (1 - baseRate + 1e-6))
  let st := (List.range 3).foldl
    (fun st (ep : ℕ) => rows.foldl (specRecStep (0.2 / (1 + (ep : ℝ))) D) st) (b0, fun _ => 0)
  some ⟨D, st.2, st.1, baseRate⟩

theorem sum_indicator_eq_countP (rows : List Row) :
    (rows.map (fun r => if r.injured then (1 : ℝ) else 0)).sum =
      (rows.countP (fun r => r.injured) : ℝ) := by
  induction rows with
  | nil => simp
  | cons r rs ih =>
    simp only [List.map_cons, List.sum_cons, List.countP_cons, ih]
    by_cases h : r.injured
    · simp only [h, if_pos]
      push_cast
      ring
    · simp [h]

/-- Updating a duplicate-free index list sequentially is the simultaneous
pointwise update. -/
theorem foldl_update_nodup {idx : List Nat} (h : idx.Nodup) (w : Nat → ℝ) (c a : ℝ) :
    idx.foldl (fun w j => Function.update w j (w j * c - a)) w =
      fun j => if j ∈ idx then w j * c - a else w j := by
  induction idx generalizing w with
  | nil => simp
  | cons i is ih =>
    have hni : i ∉ is := (List.nodup_cons.mp h).1
    simp only [List.foldl_cons]
    rw [ih (List.nodup_cons.mp h).2]
    funext j
    by_cases hji : j ∈ is
    · have hne : j ≠ i := fun he => hni (he ▸ hji)
      simp [hji, Function.update_noteq hne]
    · by_cases hj : j = i
      · subst hj
        simp [hni, hji, Function.update_same]
      · simp [hji, hj, Function.update_noteq hj]

theorem recStep_eq_specRecStep (lr : ℝ) (D : Nat) (st : ℝ × (Nat → ℝ)) (r : Row) :
    recStep lr 1e-3 st (featureIndices r.choice D, if r.injured then (1 : ℝ) else 0) =
      specRecStep lr D st r := by
  unfold recStep specRecStep
  refine Prod.ext rfl ?_
  exact foldl_update_nodup (featureIndices_nodup _ _) st.2 _ _

/-- C2: the source's training is exactly the reference computation (and,
being a pure function of the record sequence and hyperparameters, it is
deterministic). -/
theorem train_reference (rows : List Row) (D : Nat) (h : rows ≠ []) :
    trainEstimator rows D = specTrain rows D := by
  have hlen : rows.length ≠ 0 := fun hl => h (List.length_eq_zero.mp hl)
  have hmax : (max 1 rows.length : ℕ) = rows.length :=
    Nat.max_eq_right (Nat.one_le_iff_ne_zero.mpr hlen)
  simp only [trainEstimator, specTrain, if_neg hlen, if_neg h]
  rw [hmax, sum_indicator_eq_countP]
  have hfold : ∀ ep : ℕ,
      (fun (st : ℝ × (Nat → ℝ)) r =>
        recStep (0.2 / (1 + (ep : ℝ))) 1e-3 st
          (featureIndices r.choice D, if r.injured then (1 : ℝ) else 0)) =
        specRecStep (0.2 / (1 + (ep : ℝ))) D :=
    fun ep => funext fun st => funext fun r => recStep_eq_specRecStep _ D st r
  have hmap : (fun (st : ℝ × (Nat → ℝ)) (ep : ℕ) =>
      (rows.map (fun r =>
        (featureIndices r.choice D, if r.injured then (1 : ℝ) else 0))).foldl
        (recStep (0.2 / (1 + (ep : ℝ))) 1e-3) st) =
      (fun (st : ℝ × (Nat → ℝ)) (ep : ℕ) =>
        rows.foldl (specRecStep (0.2 / (1 + (ep : ℝ))) D) st) := by
    funext st ep
    rw [List.foldl_map, hfold ep]
  rw [hmap]

/-- Concrete instance of C2 on a one-record list. -/
theorem train_reference_example :
    trainEstimator [{ injured := true }] 8 = specTrain [{ injured := true }] 8 :=
  train_reference [{ injured := true }] 8 (by simp)

/-! ### Claim C9: the four-record scenario.

`"veh=Sedan"` hashes to bucket 272 and `"veh=Truck"` to bucket 782 for
`D = 1024`, so training on the four records reduces to a scalar
recurrence on the bias and the two active weights. -/

def rowSedanT : Row := { vehicleType := some "Sedan", injured := true }

def rowSedanF : Row := { vehicleType := some "Sedan", injured := false }

def rowTruckT : Row := { vehicleType := some "Truck", injured := true }

def rows4 : List Row := [rowSedanT, rowSedanF, rowTruckT, rowTruckT]

def qTruck : Choice := { vehicleType := some "Truck" }

def qSedan : Choice := { vehicleType := some "Sedan" }

/-- The scenario's weight vector: bucket 272 holds the Sedan weight,
bucket 782 the Truck weight, all others 0. -/
noncomputable def w2f (wS wT : ℝ) : Nat → ℝ :=
  fun j => if j = 272 then wS else if j = 782 then wT else 0

theorem w2f_zero : (fun (_ : Nat) => (0 : ℝ)) = w2f 0 0 := by
  funext j
  simp [w2f]

theorem w2f_272 (wS wT : ℝ) : w2f wS wT 272 = wS := by simp [w2f]

theorem w2f_782 (wS wT : ℝ) : w2f wS wT 782 = wT := by simp [w2f]

theorem recStep_S (lr lam b wS wT y : ℝ) :
    recStep lr lam (b, w2f wS wT) ([272], y) =
      (b - lr * (sigmoid (b + wS) - y),
        w2f (wS * (1 - lr * lam) - lr * (sigmoid (b + wS) - y)) wT) := by
  unfold recStep
  refine Prod.ext ?_ ?_
  · simp [w2f_272]
  · simp only [List.map_cons, List.map_nil, List.sum_cons, List.sum_nil, List.foldl_cons,
      List.foldl_nil, w2f_272, add_zero]
    funext j
    by_cases hj : j = 272
    · subst hj
      rw [Function.update_same]
      simp [w2f]
    · rw [Function.update_noteq hj]
      simp [w2f, hj]

theorem recStep_T (lr lam b wS wT y : ℝ) :
    recStep lr lam (b, w2f wS wT) ([782], y) =
      (b - lr * (sigmoid (b + wT) - y),
        w2f wS (wT * (1 - lr * lam) - lr * (sigmoid (b + wT) - y))) := by
  unfold recStep
  refine Prod.ext ?_ ?_
  · simp [w2f_782]
  · simp only [List.map_cons, List.map_nil, List.sum_cons, List.sum_nil, List.foldl_cons,
      List.foldl_nil, w2f_782, add_zero]
    funext j
    by_cases hj : j = 782
    · subst hj
      rw [Function.update_same]
      simp [w2f]
    · rw [Function.update_noteq hj]
      simp [w2f, hj]

/-- The per-epoch learning rates `0.2 / (1 + epoch)`. -/
noncomputable def lr1 : ℝ := 0.2 / (1 + ((0 : ℕ) : ℝ))

noncomputable def lr2 : ℝ := 0.2 / (1 + ((1 : ℕ) : ℝ))

noncomputable def lr3 : ℝ := 0.2 / (1 + ((2 : ℕ) : ℝ))

theorem lr1_eq : lr1 = 0.2 := by norm_num [lr1]

theorem lr2_eq : lr2 = 0.1 := by norm_num [lr2]

theorem lr3_eq : lr3 = 1 / 15 := by norm_num [lr3]

/-- The initial bias: log-odds of the base rate 3/4 with the 1e-6 guard. -/
noncomputable def c9b0 : ℝ := Real.log ((3 / 4 + 1e-6) / (1 - 3 / 4 + 1e-6))

/-! The scalar SGD recurrence of the scenario, step by step (epoch 1 uses
`lr1`, epoch 2 `lr2`, epoch 3 `lr3`; record order Sedan+, Sedan-, Truck+,
Truck+ in each epoch). -/

noncomputable def c9p1 : ℝ := sigmoid (c9b0 + 0)

noncomputable def c9b1 : ℝ := c9b0 - lr1 * (c9p1 - 1)

noncomputable def c9wS1 : ℝ := 0 * (1 - lr1 * 1e-3) - lr1 * (c9p1 - 1)

noncomputable def c9p2 : ℝ := sigmoid (c9b1 + c9wS1)

noncomputable def c9b2 : ℝ := c9b1 - lr1 * (c9p2 - 0)

noncomputable def c9wS2 : ℝ := c9wS1 * (1 - lr1 * 1e-3) - lr1 * (c9p2 - 0)

noncomputable def c9p3 : ℝ := sigmoid (c9b2 + 0)

noncomputable def c9b3 : ℝ := c9b2 - lr1 * (c9p3 - 1)

noncomputable def c9wT3 : ℝ := 0 * (1 - lr1 * 1e-3) - lr1 * (c9p3 - 1)

noncomputable def c9p4 : ℝ := sigmoid (c9b3 + c9wT3)

noncomputable def c9b4 : ℝ := c9b3 - lr1 * (c9p4 - 1)

noncomputable def c9wT4 : ℝ := c9wT3 * (1 - lr1 * 1e-3) - lr1 * (c9p4 - 1)

noncomputable def c9p5 : ℝ := sigmoid (c9b4 + c9wS2)

noncomputable def c9b5 : ℝ := c9b4 - lr2 * (c9p5 - 1)

noncomputable def c9wS5 : ℝ := c9wS2 * (1 - lr2 * 1e-3) - lr2 * (c9p5 - 1)

noncomputable def c9p6 : ℝ := sigmoid (c9b5 + c9wS5)

noncomputable def c9b6 : ℝ := c9b5 - lr2 * (c9p6 - 0)

noncomputable def c9wS6 : ℝ := c9wS5 * (1 - lr2 * 1e-3) - lr2 * (c9p6 - 0)

noncomputable def c9p7 : ℝ := sigmoid (c9b6 + c9wT4)

noncomputable def c9b7 : ℝ := c9b6 - lr2 * (c9p7 - 1)

noncomputable def c9wT7 : ℝ := c9wT4 * (1 - lr2 * 1e-3) - lr2 * (c9p7 - 1)

noncomputable def c9p8 : ℝ := sigmoid (c9b7 + c9wT7)

noncomputable def c9b8 : ℝ := c9b7 - lr2 * (c9p8 - 1)

noncomputable def c9wT8 : ℝ := c9wT7 * (1 - lr2 * 1e-3) - lr2 * (c9p8 - 1)

noncomputable def c9p9 : ℝ := sigmoid (c9b8 + c9wS6)

noncomputable def c9b9 : ℝ := c9b8 - lr3 * (c9p9 - 1)

noncomputable def c9wS9 : ℝ := c9wS6 * (1 - lr3 * 1e-3) - lr3 * (c9p9 - 1)

noncomputable def c9p10 : ℝ := sigmoid (c9b9 + c9wS9)

noncomputable def c9b10 : ℝ := c9b9 - lr3 * (c9p10 - 0)

noncomputable def c9wS10 : ℝ := c9wS9 * (1 - lr3 * 1e-3) - lr3 * (c9p10 - 0)

noncomputable def c9p11 : ℝ := sigmoid (c9b10 + c9wT8)

noncomputable def c9b11 : ℝ := c9b10 - lr3 * (c9p11 - 1)

noncomputable def c9wT11 : ℝ := c9wT8 * (1 - lr3 * 1e-3) - lr3 * (c9p11 - 1)

noncomputable def c9p12 : ℝ := sigmoid (c9b11 + c9wT11)

noncomputable def c9b12 : ℝ := c9b11 - lr3 * (c9p12 - 1)

noncomputable def c9wT12 : ℝ := c9wT11 * (1 - lr3 * 1e-3) - lr3 * (c9p12 - 1)

/-- Training on the four scenario records is exactly the scalar
recurrence above, with base rate 3/4. -/
theorem train4_eq : trainEstimator rows4 1024 =
    some ⟨1024, w2f c9wS10 c9wT12, c9b12, 3 / 4⟩ := by
  have hbase : ((rows4.map (fun r => if r.injured then (1 : ℝ) else 0)).sum /
      ((max 1 rows4.length : ℕ) : ℝ)) = 3 / 4 := by
    norm_num [rows4, rowSedanT, rowSedanF, rowTruckT]
  have h1 : featureIndices rowSedanT.choice 1024 = [272] := by decide
  have h2 : featureIndices rowSedanF.choice 1024 = [272] := by decide
  have h3 : featureIndices rowTruckT.choice 1024 = [782] := by decide
  have hdata : rows4.map (fun r => (featureIndices r.choice 1024,
      if r.injured then (1 : ℝ) else 0)) =
      [([272], 1), ([272], 0), ([782], 1), ([782], 1)] := by
    simp only [rows4, List.map_cons, List.map_nil, h1, h2, h3]
    norm_num [rowSedanT, rowSedanF, rowTruckT]
  simp only [trainEstimator]
  rw [if_neg (by decide : ¬(rows4.length = 0))]
  rw [hdata, hbase]
  rw [show List.range 3 = [0, 1, 2] from by decide]
  simp only [List.foldl_cons, List.foldl_nil]
  rw [w2f_zero]
  rw [show (0.2 : ℝ) / (1 + ((0 : ℕ) : ℝ)) = lr1 from rfl,
    show (0.2 : ℝ) / (1 + ((1 : ℕ) : ℝ)) = lr2 from rfl,
    show (0.2 : ℝ) / (1 + ((2 : ℕ) : ℝ)) = lr3 from rfl,
    show Real.log ((3 / 4 + 1e-6) / (1 - 3 / 4 + 1e-6)) = c9b0 from rfl]
  rw [recStep_S, show sigmoid (c9b0 + 0) = c9p1 from rfl,
    show c9b0 - lr1 * (c9p1 - 1) = c9b1 from rfl,
    show 0 * (1 - lr1 * 1e-3) - lr1 * (c9p1 - 1) = c9wS1 from rfl]
  rw [recStep_S, show sigmoid (c9b1 + c9wS1) = c9p2 from rfl,
    show c9b1 - lr1 * (c9p2 - 0) = c9b2 from rfl,
    show c9wS1 * (1 - lr1 * 1e-3) - lr1 * (c9p2 - 0) = c9wS2 from rfl]
  rw [recStep_T, show sigmoid (c9b2 + 0) = c9p3 from rfl,
    show c9b2 - lr1 * (c9p3 - 1) = c9b3 from rfl,
    show 0 * (1 - lr1 * 1e-3) - lr1 * (c9p3 - 1) = c9wT3 from rfl]
  rw [recStep_T, show sigmoid (c9b3 + c9wT3) = c9p4 from rfl,
    show c9b3 - lr1 * (c9p4 - 1) = c9b4 from rfl,
    show c9wT3 * (1 - lr1 * 1e-3) - lr1 * (c9p4 - 1) = c9wT4 from rfl]
  rw [recStep_S, show sigmoid (c9b4 + c9wS2) = c9p5 from rfl,
    show c9b4 - lr2 * (c9p5 - 1) = c9b5 from rfl,
    show c9wS2 * (1 - lr2 * 1e-3) - lr2 * (c9p5 - 1) = c9wS5 from rfl]
  rw [recStep_S, show sigmoid (c9b5 + c9wS5) = c9p6 from rfl,
    show c9b5 - lr2 * (c9p6 - 0) = c9b6 from rfl,
    show c9wS5 * (1 - lr2 * 1e-3) - lr2 * (c9p6 - 0) = c9wS6 from rfl]
  rw [recStep_T, show sigmoid (c9b6 + c9wT4) = c9p7 from rfl,
    show c9b6 - lr2 * (c9p7 - 1) = c9b7 from rfl,
    show c9wT4 * (1 - lr2 * 1e-3) - lr2 * (c9p7 - 1) = c9wT7 from rfl]
  rw [recStep_T, show sigmoid (c9b7 + c9wT7) = c9p8 from rfl,
    show c9b7 - lr2 * (c9p8 - 1) = c9b8 from rfl,
    show c9wT7 * (1 - lr2 * 1e-3) - lr2 * (c9p8 - 1) = c9wT8 from rfl]
  rw [recStep_S, show sigmoid (c9b8 + c9wS6) = c9p9 from rfl,
    show c9b8 - lr3 * (c9p9 - 1) = c9b9 from rfl,
    show c9wS6 * (1 - lr3 * 1e-3) - lr3 * (c9p9 - 1) = c9wS9 from rfl]
  rw [recStep_S, show sigmoid (c9b9 + c9wS9) = c9p10 from rfl,
    show c9b9 - lr3 * (c9p10 - 0) = c9b10 from rfl,
    show c9wS9 * (1 - lr3 * 1e-3) - lr3 * (c9p10 - 0) = c9wS10 from rfl]
  rw [recStep_T, show sigmoid (c9b10 + c9wT8) = c9p11 from rfl,
    show c9b10 - lr3 * (c9p11 - 1) = c9b11 from rfl,
    show c9wT8 * (1 - lr3 * 1e-3) - lr3 * (c9p11 - 1) = c9wT11 from rfl]
  rw [recStep_T, show sigmoid (c9b11 + c9wT11) = c9p12 from rfl,
    show c9b11 - lr3 * (c9p12 - 1) = c9b12 from rfl,
    show c9wT11 * (1 - lr3 * 1e-3) - lr3 * (c9p12 - 1) = c9wT12 from rfl]

/-! Certified rational bounds for `exp`, via the degree-6 Taylor
remainder bound and squaring of the half-argument. -/

theorem exp_poly_lower {q : ℝ} (hq : |q| ≤ 1) :
    1 + q + q ^ 2 / 2 + q ^ 3 / 6 + q ^ 4 / 24 + q ^ 5 / 120 - q ^ 6 * (7 / 4320) ≤
      Real.exp q := by
  have h := @Real.exp_bound q hq 6 (by norm_num)
  have hsum : ∑ m ∈ Finset.range 6, q ^ m / (m.factorial : ℝ) =
      1 + q + q ^ 2 / 2 + q ^ 3 / 6 + q ^ 4 / 24 + q ^ 5 / 120 := by
    simp [Finset.sum_range_succ, Nat.factorial]
  have habs : |q| ^ 6 = q ^ 6 := by
    rw [← abs_pow]
    exact abs_of_nonneg (by positivity)
  rw [hsum, habs] at h
  have h2 := (abs_sub_le_iff.mp h).2
  norm_num [Nat.factorial] at h2
  linarith [h2]

theorem exp_poly_upper {q : ℝ} (hq : |q| ≤ 1) :
    Real.exp q ≤
      1 + q + q ^ 2 / 2 + q ^ 3 / 6 + q ^ 4 / 24 + q ^ 5 / 120 + q ^ 6 * (7 / 4320) := by
  have h := @Real.exp_bound q hq 6 (by norm_num)
  have hsum : ∑ m ∈ Finset.range 6, q ^ m / (m.factorial : ℝ) =
      1 + q + q ^ 2 / 2 + q ^ 3 / 6 + q ^ 4 / 24 + q ^ 5 / 120 := by
    simp [Finset.sum_range_succ, Nat.factorial]
  have habs : |q| ^ 6 = q ^ 6 := by
    rw [← abs_pow]
    exact abs_of_nonneg (by positivity)
  rw [hsum, habs] at h
  have h2 := (abs_sub_le_iff.mp h).1
  norm_num [Nat.factorial] at h2
  linarith [h2]

theorem exp_sq_lower (q z a : ℝ) (hz : z = q + q) (hq : |q| ≤ 1)
    (h0 : 0 ≤ 1 + q + q ^ 2 / 2 + q ^ 3 / 6 + q ^ 4 / 24 + q ^ 5 / 120 - q ^ 6 * (7 / 4320))
    (h1 : a ≤ (1 + q + q ^ 2 / 2 + q ^ 3 / 6 + q ^ 4 / 24 + q ^ 5 / 120 -
      q ^ 6 * (7 / 4320)) ^ 2) :
    a ≤ Real.exp z := by
  subst hz
  have hL := exp_poly_lower hq
  calc a ≤ (1 + q + q ^ 2 / 2 + q ^ 3 / 6 + q ^ 4 / 24 + q ^ 5 / 120 -
        q ^ 6 * (7 / 4320)) ^ 2 := h1
    _ ≤ Real.exp q ^ 2 := pow_le_pow_left₀ h0 hL 2
    _ = Real.exp (q + q) := by rw [sq, ← Real.exp_add]

theorem exp_sq_upper (q z b : ℝ) (hz : z = q + q) (hq : |q| ≤ 1)
    (h1 : (1 + q + q ^ 2 / 2 + q ^ 3 / 6 + q ^ 4 / 24 + q ^ 5 / 120 +
      q ^ 6 * (7 / 4320)) ^ 2 ≤ b) :
    Real.exp z ≤ b := by
  subst hz
  have hU := exp_poly_upper hq
  calc Real.exp (q + q) = Real.exp q ^ 2 := by rw [sq, ← Real.exp_add]
    _ ≤ (1 + q + q ^ 2 / 2 + q ^ 3 / 6 + q ^ 4 / 24 + q ^ 5 / 120 +
        q ^ 6 * (7 / 4320)) ^ 2 := pow_le_pow_left₀ (le_of_lt (Real.exp_pos q)) hU 2
    _ ≤ b := h1

/-! Rational bounds for the clamped sigmoid. -/

theorem sigmoid_eq_of_mem (z : ℝ) (h1 : -30 ≤ z) (h2 : z ≤ 30) :
    sigmoid z = 1 / (1 + Real.exp (-z)) := by
  unfold sigmoid
  rw [min_eq_right h2, max_eq_right h1]

theorem sigmoid_pos (z : ℝ) : 0 < sigmoid z := by
  unfold sigmoid
  positivity

theorem sigmoid_lt_one (z : ℝ) : sigmoid z < 1 := by
  unfold sigmoid
  rw [div_lt_one (by positivity)]
  nlinarith [Real.exp_pos (-(max (-30) (min 30 z)))]

theorem clamp_sigmoid (z : ℝ) : max 0 (min 1 (sigmoid z)) = sigmoid z := by
  rw [min_eq_right (le_of_lt (sigmoid_lt_one z)), max_eq_right (le_of_lt (sigmoid_pos z))]

theorem sigmoid_lt_sigmoid {z1 z2 : ℝ} (h1 : -30 ≤ z1) (h2 : z2 ≤ 30) (h : z1 < z2) :
    sigmoid z1 < sigmoid z2 := by
  rw [sigmoid_eq_of_mem z1 h1 (by linarith), sigmoid_eq_of_mem z2 (by linarith) h2]
  have hexp : Real.exp (-z2) < Real.exp (-z1) := Real.exp_lt_exp.mpr (by linarith)
  have hp2 : 0 < 1 + Real.exp (-z2) := by positivity
  apply div_lt_div_of_pos_left one_pos hp2
  linarith

theorem sigmoid_le_of {z zu hi A : ℝ} (hz : z ≤ zu) (hz1 : -30 ≤ z) (hzu : zu ≤ 30)
    (hA0 : 0 ≤ A) (hA : A ≤ Real.exp (-zu)) (hhi : 1 ≤ hi * (1 + A)) : sigmoid z ≤ hi := by
  rw [sigmoid_eq_of_mem z hz1 (le_trans hz hzu)]
  have hle : A ≤ Real.exp (-z) := le_trans hA (Real.exp_le_exp.mpr (by linarith))
  have hhi0 : 0 < hi := by nlinarith
  rw [div_le_iff₀ (by positivity : (0 : ℝ) < 1 + Real.exp (-z))]
  nlinarith [mul_le_mul_of_nonneg_left (by linarith : 1 + A ≤ 1 + Real.exp (-z))
    (le_of_lt hhi0)]

theorem sigmoid_ge_of {z zl lo B : ℝ} (hz : zl ≤ z) (hzl : -30 ≤ zl) (hz30 : z ≤ 30)
    (hB : Real.exp (-zl) ≤ B) (hlo0 : 0 ≤ lo) (hlo : lo * (1 + B) ≤ 1) : lo ≤ sigmoid z := by
  rw [sigmoid_eq_of_mem z (le_trans hzl hz) hz30]
  have hle : Real.exp (-z) ≤ B := le_trans (Real.exp_le_exp.mpr (by linarith)) hB
  rw [le_div_iff₀ (by positivity : (0 : ℝ) < 1 + Real.exp (-z))]
  nlinarith [mul_le_mul_of_nonneg_left (by linarith : 1 + Real.exp (-z) ≤ 1 + B) hlo0]

set_option maxHeartbeats 3200000 in
/-- C9: training on the four scenario records yields base rate 3/4, and
the trained model predicts a strictly higher injury probability for the
Truck query than for the Sedan query. -/
theorem train4_scenario :
    ∃ m, trainEstimator rows4 1024 = some m ∧ m.baseRate = 3 / 4 ∧
      ∃ pT pS, predictEstimator (some m) qTruck = some pT ∧
        predictEstimator (some m) qSedan = some pS ∧ pS < pT := by
  refine ⟨⟨1024, w2f c9wS10 c9wT12, c9b12, 3 / 4⟩, train4_eq, rfl,
    sigmoid (c9b12 + (c9wT12 + 0)), sigmoid (c9b12 + (c9wS10 + 0)), ?_, ?_, ?_⟩
  · simp only [predictEstimator]
    rw [show featureIndices qTruck 1024 = [782] from by decide]
    simp only [List.map_cons, List.map_nil, List.sum_cons, List.sum_nil, w2f_782]
    rw [clamp_sigmoid]
  · simp only [predictEstimator]
    rw [show featureIndices qSedan 1024 = [272] from by decide]
    simp only [List.map_cons, List.map_nil, List.sum_cons, List.sum_nil, w2f_272]
    rw [clamp_sigmoid]
  have hb0l : (1.0985 : ℝ) ≤ c9b0 := by
    rw [c9b0, show ((3 : ℝ) / 4 + 1e-6) / (1 - 3 / 4 + 1e-6) = 750001 / 250001 from by norm_num]
    rw [Real.le_log_iff_exp_le (by norm_num)]
    exact exp_sq_upper 0.54925 1.0985 (750001 / 250001) (by norm_num)
      (by rw [abs_le]; constructor <;> norm_num) (by norm_num)
  have hb0u : c9b0 ≤ (1.0988 : ℝ) := by
    rw [c9b0, show ((3 : ℝ) / 4 + 1e-6) / (1 - 3 / 4 + 1e-6) = 750001 / 250001 from by norm_num]
    rw [Real.log_le_iff_le_exp (by norm_num)]
    exact exp_sq_lower 0.5494 1.0988 (750001 / 250001) (by norm_num)
      (by rw [abs_le]; constructor <;> norm_num) (by norm_num) (by norm_num)
  have hz1l : ((2197/2000) : ℝ) ≤ c9b0 + 0 := by linarith
  have hz1u : c9b0 + 0 ≤ ((2747/2500) : ℝ) := by linarith
  have hA1 : ((166589/500000) : ℝ) ≤ Real.exp (-((2747/2500) : ℝ)) :=
    exp_sq_lower ((-2747/5000)) (-((2747/2500) : ℝ)) ((166589/500000)) (by norm_num)
      (by rw [abs_le]; constructor <;> norm_num) (by norm_num) (by norm_num)
  have hB1 : Real.exp (-((2197/2000) : ℝ)) ≤ ((166691/500000) : ℝ) :=
    exp_sq_upper ((-2197/4000)) (-((2197/2000) : ℝ)) ((166691/500000)) (by norm_num)
      (by rw [abs_le]; constructor <;> norm_num) (by norm_num)
  have hp1l : (0.74997 : ℝ) ≤ c9p1 := by
    rw [c9p1]
    exact sigmoid_ge_of hz1l (by norm_num) (by linarith) hB1 (by norm_num) (by norm_num)
  have hp1u : c9p1 ≤ (0.75009 : ℝ) := by
    rw [c9p1]
    exact sigmoid_le_of hz1u (by linarith) (by norm_num) (by norm_num) hA1 (by norm_num)
  have hb1l : ((574241/500000) : ℝ) ≤ c9b1 := by
    rw [c9b1, lr1_eq]
    linarith
  have hb1u : c9b1 ≤ ((574403/500000) : ℝ) := by
    rw [c9b1, lr1_eq]
    linarith
  have hwS1l : ((24991/500000) : ℝ) ≤ c9wS1 := by
    rw [c9wS1, lr1_eq]
    linarith
  have hwS1u : c9wS1 ≤ ((25003/500000) : ℝ) := by
    rw [c9wS1, lr1_eq]
    linarith
  have hz2l : ((749/625) : ℝ) ≤ c9b1 + c9wS1 := by linarith
  have hz2u : c9b1 + c9wS1 ≤ (1.1989 : ℝ) := by linarith
  have hA2 : ((150689/500000) : ℝ) ≤ Real.exp (-(1.1989 : ℝ)) :=
    exp_sq_lower ((-11989/20000)) (-(1.1989 : ℝ)) ((150689/500000)) (by norm_num)
      (by rw [abs_le]; constructor <;> norm_num) (by norm_num) (by norm_num)
  have hB2 : Real.exp (-((749/625) : ℝ)) ≤ ((150847/500000) : ℝ) :=
    exp_sq_upper ((-749/1250)) (-((749/625) : ℝ)) ((150847/500000)) (by norm_num)
      (by rw [abs_le]; constructor <;> norm_num) (by norm_num)
  have hp2l : ((38411/50000) : ℝ) ≤ c9p2 := by
    rw [c9p2]
    exact sigmoid_ge_of hz2l (by norm_num) (by linarith) hB2 (by norm_num) (by norm_num)
  have hp2u : c9p2 ≤ ((38421/50000) : ℝ) := by
    rw [c9p2]
    exact sigmoid_le_of hz2u (by linarith) (by norm_num) (by norm_num) hA2 (by norm_num)
  have hb2l : ((497399/500000) : ℝ) ≤ c9b2 := by
    rw [c9b2, lr1_eq]
    linarith
  have hb2u : c9b2 ≤ ((497581/500000) : ℝ) := by
    rw [c9b2, lr1_eq]
    linarith
  have hwS2l : ((-3241/31250) : ℝ) ≤ c9wS2 := by
    rw [c9wS2, lr1_eq]
    linarith
  have hwS2u : c9wS2 ≤ ((-3239/31250) : ℝ) := by
    rw [c9wS2, lr1_eq]
    linarith
  have hz3l : (0.9947 : ℝ) ≤ c9b2 + 0 := by linarith
  have hz3u : c9b2 + 0 ≤ ((622/625) : ℝ) := by linarith
  have hA3 : ((73919/200000) : ℝ) ≤ Real.exp (-((622/625) : ℝ)) :=
    exp_sq_lower ((-311/625)) (-((622/625) : ℝ)) ((73919/200000)) (by norm_num)
      (by rw [abs_le]; constructor <;> norm_num) (by norm_num) (by norm_num)
  have hB3 : Real.exp (-(0.9947 : ℝ)) ≤ (0.369841 : ℝ) :=
    exp_sq_upper ((-9947/20000)) (-(0.9947 : ℝ)) (0.369841) (by norm_num)
      (by rw [abs_le]; constructor <;> norm_num) (by norm_num)
  have hp3l : (0.73001 : ℝ) ≤ c9p3 := by
    rw [c9p3]
    exact sigmoid_ge_of hz3l (by norm_num) (by linarith) hB3 (by norm_num) (by norm_num)
  have hp3u : c9p3 ≤ ((14603/20000) : ℝ) := by
    rw [c9p3]
    exact sigmoid_le_of hz3u (by linarith) (by norm_num) (by norm_num) hA3 (by norm_num)
  have hb3l : ((16387/15625) : ℝ) ≤ c9b3 := by
    rw [c9b3, lr1_eq]
    linarith
  have hb3u : c9b3 ≤ ((26229/25000) : ℝ) := by
    rw [c9b3, lr1_eq]
    linarith
  have hwT3l : (0.05397 : ℝ) ≤ c9wT3 := by
    rw [c9wT3, lr1_eq]
    linarith
  have hwT3u : c9wT3 ≤ ((26999/500000) : ℝ) := by
    rw [c9wT3, lr1_eq]
    linarith
  have hz4l : (1.1027 : ℝ) ≤ c9b3 + c9wT3 := by linarith
  have hz4u : c9b3 + c9wT3 ≤ ((1379/1250) : ℝ) := by linarith
  have hA4 : (0.331713 : ℝ) ≤ Real.exp (-((1379/1250) : ℝ)) :=
    exp_sq_lower ((-1379/2500)) (-((1379/1250) : ℝ)) (0.331713) (by norm_num)
      (by rw [abs_le]; constructor <;> norm_num) (by norm_num) (by norm_num)
  have hB4 : Real.exp (-(1.1027 : ℝ)) ≤ ((66397/200000) : ℝ) :=
    exp_sq_upper ((-11027/20000)) (-(1.1027 : ℝ)) ((66397/200000)) (by norm_num)
      (by rw [abs_le]; constructor <;> norm_num) (by norm_num)
  have hp4l : ((3003/4000) : ℝ) ≤ c9p4 := by
    rw [c9p4]
    exact sigmoid_ge_of hz4l (by norm_num) (by linarith) hB4 (by norm_num) (by norm_num)
  have hp4u : c9p4 ≤ ((18773/25000) : ℝ) := by
    rw [c9p4]
    exact sigmoid_le_of hz4u (by linarith) (by norm_num) (by norm_num) hA4 (by norm_num)
  have hb4l : ((137323/125000) : ℝ) ≤ c9b4 := by
    rw [c9b4, lr1_eq]
    linarith
  have hb4u : c9b4 ≤ (1.09901 : ℝ) := by
    rw [c9b4, lr1_eq]
    linarith
  have hwT4l : ((4151/40000) : ℝ) ≤ c9wT4 := by
    rw [c9wT4, lr1_eq]
    linarith
  have hwT4u : c9wT4 ≤ ((51919/500000) : ℝ) := by
    rw [c9wT4, lr1_eq]
    linarith
  have hz5l : ((2487/2500) : ℝ) ≤ c9b4 + c9wS2 := by linarith
  have hz5u : c9b4 + c9wS2 ≤ ((4977/5000) : ℝ) := by linarith
  have hA5 : (0.369521 : ℝ) ≤ Real.exp (-((4977/5000) : ℝ)) :=
    exp_sq_lower (-0.4977) (-((4977/5000) : ℝ)) (0.369521) (by norm_num)
      (by rw [abs_le]; constructor <;> norm_num) (by norm_num) (by norm_num)
  have hB5 : Real.exp (-((2487/2500) : ℝ)) ≤ ((92451/250000) : ℝ) :=
    exp_sq_upper ((-2487/5000)) (-((2487/2500) : ℝ)) ((92451/250000)) (by norm_num)
      (by rw [abs_le]; constructor <;> norm_num) (by norm_num)
  have hp5l : (0.73003 : ℝ) ≤ c9p5 := by
    rw [c9p5]
    exact sigmoid_ge_of hz5l (by norm_num) (by linarith) hB5 (by norm_num) (by norm_num)
  have hp5u : c9p5 ≤ (0.73019 : ℝ) := by
    rw [c9p5]
    exact sigmoid_le_of hz5u (by linarith) (by norm_num) (by norm_num) hA5 (by norm_num)
  have hb5l : ((225113/200000) : ℝ) ≤ c9b5 := by
    rw [c9b5, lr2_eq]
    linarith
  have hb5u : c9b5 ≤ (1.126007 : ℝ) := by
    rw [c9b5, lr2_eq]
    linarith
  have hwS5l : (-0.076721 : ℝ) ≤ c9wS5 := by
    rw [c9wS5, lr2_eq]
    linarith
  have hwS5u : c9wS5 ≤ ((-479/6250) : ℝ) := by
    rw [c9wS5, lr2_eq]
    linarith
  have hz6l : ((1311/1250) : ℝ) ≤ c9b5 + c9wS5 := by linarith
  have hz6u : c9b5 + c9wS5 ≤ ((5247/5000) : ℝ) := by linarith
  have hA6 : ((14003/40000) : ℝ) ≤ Real.exp (-((5247/5000) : ℝ)) :=
    exp_sq_lower (-0.5247) (-((5247/5000) : ℝ)) ((14003/40000)) (by norm_num)
      (by rw [abs_le]; constructor <;> norm_num) (by norm_num) (by norm_num)
  have hB6 : Real.exp (-((1311/1250) : ℝ)) ≤ (0.350367 : ℝ) :=
    exp_sq_upper ((-1311/2500)) (-((1311/1250) : ℝ)) (0.350367) (by norm_num)
      (by rw [abs_le]; constructor <;> norm_num) (by norm_num)
  have hp6l : (0.74053 : ℝ) ≤ c9p6 := by
    rw [c9p6]
    exact sigmoid_ge_of hz6l (by norm_num) (by linarith) hB6 (by norm_num) (by norm_num)
  have hp6u : c9p6 ≤ (0.7407 : ℝ) := by
    rw [c9p6]
    exact sigmoid_le_of hz6u (by linarith) (by norm_num) (by norm_num) hA6 (by norm_num)
  have hb6l : ((210299/200000) : ℝ) ≤ c9b6 := by
    rw [c9b6, lr2_eq]
    linarith
  have hb6u : c9b6 ≤ ((525977/500000) : ℝ) := by
    rw [c9b6, lr2_eq]
    linarith
  have hwS6l : ((-2356/15625) : ℝ) ≤ c9wS6 := by
    rw [c9wS6, lr2_eq]
    linarith
  have hwS6u : c9wS6 ≤ ((-30137/200000) : ℝ) := by
    rw [c9wS6, lr2_eq]
    linarith
  have hz7l : ((722/625) : ℝ) ≤ c9b6 + c9wT4 := by linarith
  have hz7u : c9b6 + c9wT4 ≤ ((5779/5000) : ℝ) := by linarith
  have hA7 : ((78671/250000) : ℝ) ≤ Real.exp (-((5779/5000) : ℝ)) :=
    exp_sq_lower (-0.5779) (-((5779/5000) : ℝ)) ((78671/250000)) (by norm_num)
      (by rw [abs_le]; constructor <;> norm_num) (by norm_num) (by norm_num)
  have hB7 : Real.exp (-((722/625) : ℝ)) ≤ (0.315009 : ℝ) :=
    exp_sq_upper ((-361/625)) (-((722/625) : ℝ)) (0.315009) (by norm_num)
      (by rw [abs_le]; constructor <;> norm_num) (by norm_num)
  have hp7l : ((15209/20000) : ℝ) ≤ c9p7 := by
    rw [c9p7]
    exact sigmoid_ge_of hz7l (by norm_num) (by linarith) hB7 (by norm_num) (by norm_num)
  have hp7u : c9p7 ≤ ((2377/3125) : ℝ) := by
    rw [c9p7]
    exact sigmoid_le_of hz7u (by linarith) (by norm_num) (by norm_num) hA7 (by norm_num)
  have hb7l : (1.075431 : ℝ) ≤ c9b7 := by
    rw [c9b7, lr2_eq]
    linarith
  have hb7u : c9b7 ≤ (1.075909 : ℝ) := by
    rw [c9b7, lr2_eq]
    linarith
  have hwT7l : (0.1277 : ℝ) ≤ c9wT7 := by
    rw [c9wT7, lr2_eq]
    linarith
  have hwT7u : c9wT7 ≤ (0.127783 : ℝ) := by
    rw [c9wT7, lr2_eq]
    linarith
  have hz8l : (1.2031 : ℝ) ≤ c9b7 + c9wT7 := by linarith
  have hz8u : c9b7 + c9wT7 ≤ (1.2037 : ℝ) := by linarith
  have hA8 : (0.29993 : ℝ) ≤ Real.exp (-(1.2037 : ℝ)) :=
    exp_sq_lower ((-12037/20000)) (-(1.2037 : ℝ)) (0.29993) (by norm_num)
      (by rw [abs_le]; constructor <;> norm_num) (by norm_num) (by norm_num)
  have hB8 : Real.exp (-(1.2031 : ℝ)) ≤ ((7507/25000) : ℝ) :=
    exp_sq_upper ((-12031/20000)) (-(1.2031 : ℝ)) ((7507/25000)) (by norm_num)
      (by rw [abs_le]; constructor <;> norm_num) (by norm_num)
  have hp8l : ((38453/50000) : ℝ) ≤ c9p8 := by
    rw [c9p8]
    exact sigmoid_ge_of hz8l (by norm_num) (by linarith) hB8 (by norm_num) (by norm_num)
  have hp8u : c9p8 ≤ ((2404/3125) : ℝ) := by
    rw [c9p8]
    exact sigmoid_le_of hz8u (by linarith) (by norm_num) (by norm_num) hA8 (by norm_num)
  have hb8l : (1.098503 : ℝ) ≤ c9b8 := by
    rw [c9b8, lr2_eq]
    linarith
  have hb8u : c9b8 ≤ (1.099003 : ℝ) := by
    rw [c9b8, lr2_eq]
    linarith
  have hwT8l : (0.150759 : ℝ) ≤ c9wT8 := by
    rw [c9wT8, lr2_eq]
    linarith
  have hwT8u : c9wT8 ≤ ((30173/200000) : ℝ) := by
    rw [c9wT8, lr2_eq]
    linarith
  have hz9l : (0.9477 : ℝ) ≤ c9b8 + c9wS6 := by linarith
  have hz9u : c9b8 + c9wS6 ≤ ((2371/2500) : ℝ) := by linarith
  have hA9 : ((193659/500000) : ℝ) ≤ Real.exp (-((2371/2500) : ℝ)) :=
    exp_sq_lower ((-2371/5000)) (-((2371/2500) : ℝ)) ((193659/500000)) (by norm_num)
      (by rw [abs_le]; constructor <;> norm_num) (by norm_num) (by norm_num)
  have hB9 : Real.exp (-(0.9477 : ℝ)) ≤ (0.387637 : ℝ) :=
    exp_sq_upper ((-9477/20000)) (-(0.9477 : ℝ)) (0.387637) (by norm_num)
      (by rw [abs_le]; constructor <;> norm_num) (by norm_num)
  have hp9l : ((2252/3125) : ℝ) ≤ c9p9 := by
    rw [c9p9]
    exact sigmoid_ge_of hz9l (by norm_num) (by linarith) hB9 (by norm_num) (by norm_num)
  have hp9u : c9p9 ≤ ((36041/50000) : ℝ) := by
    rw [c9p9]
    exact sigmoid_le_of hz9u (by linarith) (by norm_num) (by norm_num) hA9 (by norm_num)
  have hb9l : ((223423/200000) : ℝ) ≤ c9b9 := by
    rw [c9b9, lr3_eq]
    linarith
  have hb9u : c9b9 ≤ (1.117627 : ℝ) := by
    rw [c9b9, lr3_eq]
    linarith
  have hwS9l : ((-66081/500000) : ℝ) ≤ c9wS9 := by
    rw [c9wS9, lr3_eq]
    linarith
  have hwS9u : c9wS9 ≤ ((-2641/20000) : ℝ) := by
    rw [c9wS9, lr3_eq]
    linarith
  have hz10l : (0.9849 : ℝ) ≤ c9b9 + c9wS9 := by linarith
  have hz10u : c9b9 + c9wS9 ≤ ((616/625) : ℝ) := by linarith
  have hA10 : ((93291/250000) : ℝ) ≤ Real.exp (-((616/625) : ℝ)) :=
    exp_sq_lower ((-308/625)) (-((616/625) : ℝ)) ((93291/250000)) (by norm_num)
      (by rw [abs_le]; constructor <;> norm_num) (by norm_num) (by norm_num)
  have hB10 : Real.exp (-(0.9849 : ℝ)) ≤ (0.373483 : ℝ) :=
    exp_sq_upper ((-9849/20000)) (-(0.9849 : ℝ)) (0.373483) (by norm_num)
      (by rw [abs_le]; constructor <;> norm_num) (by norm_num)
  have hp10l : (0.72807 : ℝ) ≤ c9p10 := by
    rw [c9p10]
    exact sigmoid_ge_of hz10l (by norm_num) (by linarith) hB10 (by norm_num) (by norm_num)
  have hp10u : c9p10 ≤ ((2913/4000) : ℝ) := by
    rw [c9p10]
    exact sigmoid_le_of hz10u (by linarith) (by norm_num) (by norm_num) hA10 (by norm_num)
  have hb10l : ((213713/200000) : ℝ) ≤ c9b10 := by
    rw [c9b10, lr3_eq]
    linarith
  have hb10u : c9b10 ≤ (1.069089 : ℝ) := by
    rw [c9b10, lr3_eq]
    linarith
  have hwS10l : ((-5647/31250) : ℝ) ≤ c9wS10 := by
    rw [c9wS10, lr3_eq]
    linarith
  have hwS10u : c9wS10 ≤ (-0.180579 : ℝ) := by
    rw [c9wS10, lr3_eq]
    linarith
  have hz11l : (1.2193 : ℝ) ≤ c9b10 + c9wT8 := by linarith
  have hz11u : c9b10 + c9wT8 ≤ ((61/50) : ℝ) := by linarith
  have hA11 : ((73767/250000) : ℝ) ≤ Real.exp (-((61/50) : ℝ)) :=
    exp_sq_lower (-0.61) (-((61/50) : ℝ)) ((73767/250000)) (by norm_num)
      (by rw [abs_le]; constructor <;> norm_num) (by norm_num) (by norm_num)
  have hB11 : Real.exp (-(1.2193 : ℝ)) ≤ (0.295457 : ℝ) :=
    exp_sq_upper ((-12193/20000)) (-(1.2193 : ℝ)) (0.295457) (by norm_num)
      (by rw [abs_le]; constructor <;> norm_num) (by norm_num)
  have hp11l : ((9649/12500) : ℝ) ≤ c9p11 := by
    rw [c9p11]
    exact sigmoid_ge_of hz11l (by norm_num) (by linarith) hB11 (by norm_num) (by norm_num)
  have hp11u : c9p11 ≤ (0.77217 : ℝ) := by
    rw [c9p11]
    exact sigmoid_le_of hz11u (by linarith) (by norm_num) (by norm_num) hA11 (by norm_num)
  have hb11l : (1.083753 : ℝ) ≤ c9b11 := by
    rw [c9b11, lr3_eq]
    linarith
  have hb11u : c9b11 ≤ ((216859/200000) : ℝ) := by
    rw [c9b11, lr3_eq]
    linarith
  have hwT11l : (0.165937 : ℝ) ≤ c9wT11 := by
    rw [c9wT11, lr3_eq]
    linarith
  have hwT11u : c9wT11 ≤ (0.166061 : ℝ) := by
    rw [c9wT11, lr3_eq]
    linarith
  have hz12l : ((781/625) : ℝ) ≤ c9b11 + c9wT11 := by linarith
  have hz12u : c9b11 + c9wT11 ≤ ((1563/1250) : ℝ) := by linarith
  have hA12 : ((57241/200000) : ℝ) ≤ Real.exp (-((1563/1250) : ℝ)) :=
    exp_sq_lower ((-1563/2500)) (-((1563/1250) : ℝ)) ((57241/200000)) (by norm_num)
      (by rw [abs_le]; constructor <;> norm_num) (by norm_num) (by norm_num)
  have hB12 : Real.exp (-((781/625) : ℝ)) ≤ ((143321/500000) : ℝ) :=
    exp_sq_upper ((-781/1250)) (-((781/625) : ℝ)) ((143321/500000)) (by norm_num)
      (by rw [abs_le]; constructor <;> norm_num) (by norm_num)
  have hp12l : (0.77721 : ℝ) ≤ c9p12 := by
    rw [c9p12]
    exact sigmoid_ge_of hz12l (by norm_num) (by linarith) hB12 (by norm_num) (by norm_num)
  have hp12u : c9p12 ≤ (0.77749 : ℝ) := by
    rw [c9p12]
    exact sigmoid_le_of hz12u (by linarith) (by norm_num) (by norm_num) hA12 (by norm_num)
  have hb12l : (1.098587 : ℝ) ≤ c9b12 := by
    rw [c9b12, lr3_eq]
    linarith
  have hb12u : c9b12 ≤ ((274787/250000) : ℝ) := by
    rw [c9b12, lr3_eq]
    linarith
  have hwT12l : (0.180759 : ℝ) ≤ c9wT12 := by
    rw [c9wT12, lr3_eq]
    linarith
  have hwT12u : c9wT12 ≤ (0.180903 : ℝ) := by
    rw [c9wT12, lr3_eq]
    linarith
  exact sigmoid_lt_sigmoid (by linarith) (by linarith) (by linarith)

end Cars316
